import Mathlib

/-!
Verification of the core engines of the iracing-setup-downloader repository.

This file is a shallow embedding, in Lean 4, of the Python modules
`state.py` (the idempotency ledger), `downloader.py` (retry and
orchestration logic), `deduplication.py` (hash cache and duplicate index)
and `track_matcher.py` (fuzzy category resolution), followed by theorems
that settle the specification claims about them.

Modelling conventions, used uniformly below:
 - Python strings are Lean `String`; character-level work happens on
   `String.data : List Char`.  Python string comparison is code-point
   lexicographic, embedded here as the structural `listLtB`.
 - Python `dict` objects (which preserve insertion order) are association
   lists `List (key × value)`; insertion overwrites in place or appends
   at the end, exactly as a `dict` does.
 - Filesystem paths are taken as already-resolved absolute strings, so
   `Path.resolve()` / `Path.absolute()` are the identity.
 - The filesystem is a parameter: `String → Bool` where only existence
   matters, and `String → Option FileInfo` where stat data and content
   matter.  SHA-256 itself is out of scope; the digest function is an
   explicit parameter `hashFn : String → String` of the dedup model
   (no injectivity is assumed anywhere).
 - Python exceptions become sum types / `Option`; a raised exception is
   the error branch, and mutations the Python code performed before
   raising are reflected in the carried values.
 - `asyncio` awaits are modelled at attempt granularity: each call to the
   provider either returns an `ExtractResult`, raises an arbitrary
   exception (carried as its message), or observes cancellation.
 - Python floats in the matcher are modelled as exact rationals.  Every
   score the matcher computes is a sum of 5, 2, 1 and 1/2, so score
   arithmetic and the `top - 0.1` comparisons are exact in both models.
-/

namespace IRSD

/-! ## Generic helpers: association lists and string ordering -/

/-- Lookup in an association list (first binding wins; the construction
below keeps keys unique, matching a Python `dict`). -/
def alistLookup {α : Type} (l : List (String × α)) (k : String) : Option α :=
  match l with
  | [] => none
  | (k', v) :: rest => if k' = k then some v else alistLookup rest k

/-- `d[k] = v` on a Python dict: overwrite the binding in place if the key
is present, otherwise append the new binding at the end. -/
def alistInsert {α : Type} (l : List (String × α)) (k : String) (v : α) :
    List (String × α) :=
  match l with
  | [] => [(k, v)]
  | (k', v') :: rest =>
    if k' = k then (k, v) :: rest else (k', v') :: alistInsert rest k v

/-- Code-point lexicographic order on character lists: the order Python
uses to compare strings (`sorted(paths, key=str)`). -/
def listLtB : List Char → List Char → Bool
  | [], [] => false
  | [], _ :: _ => true
  | _ :: _, [] => false
  | a :: as, b :: bs => if a < b then true else if b < a then false else listLtB as bs

/-- Python `a < b` on strings. -/
def strLtB (a b : String) : Bool := listLtB a.data b.data

/-! ## Ledger: `state.py` -/

/-- `DownloadRecord` (state.py).  `file_path` is the deprecated legacy
single-path field kept for backwards compatibility. -/
structure DownloadRecord where
  updated_date : String
  file_paths : List String
  file_path : Option String
deriving DecidableEq, Repr

/-- `DownloadRecord.get_all_paths`.  Note the Python truthiness tests:
an empty `file_paths` list and a `file_path` that is `None` or the empty
string are all falsy. -/
def DownloadRecord.get_all_paths (r : DownloadRecord) : List String :=
  if r.file_paths ≠ [] then r.file_paths
  else match r.file_path with
    | some p => if p ≠ "" then [p] else []
    | none => []

/-- `DownloadState` (state.py): provider → (setup-id as string → record),
plus the `_loaded` flag. -/
structure DownloadState where
  table : List (String × List (String × DownloadRecord))
  loaded : Bool
deriving DecidableEq, Repr

/-- The record stored for `(provider, setup_id)`, going through both
dictionary levels. -/
def DownloadState.lookupRecord (st : DownloadState) (provider : String)
    (setup_id : Nat) : Option DownloadRecord :=
  match alistLookup st.table provider with
  | none => none
  | some records => alistLookup records (toString setup_id)

/-- `DownloadState.is_downloaded`.  `fs` is the filesystem existence
predicate used by `Path(fp).exists()`; `updated_date` is the supplied
datetime already in ISO form (the code compares `isoformat()` strings). -/
def DownloadState.is_downloaded (fs : String → Bool) (st : DownloadState)
    (provider : String) (setup_id : Nat) (updated_date : String) : Bool :=
  if !st.loaded then false
  else
    match alistLookup st.table provider with
    | none => false
    | some records =>
      match alistLookup records (toString setup_id) with
      | none => false
      | some record =>
        if record.updated_date ≠ updated_date then false
        else
          let file_paths := record.get_all_paths
          if file_paths = [] then false
          else file_paths.any fs

/-- `DownloadState.mark_downloaded`.  Raises `ValueError` when the state
was never loaded (the `none` branch); paths are stored as absolute
strings (identity here). -/
def DownloadState.mark_downloaded (st : DownloadState) (provider : String)
    (setup_id : Nat) (updated_date : String) (file_paths : List String) :
    Option DownloadState :=
  if !st.loaded then none
  else
    let records := (alistLookup st.table provider).getD []
    let record : DownloadRecord :=
      { updated_date := updated_date, file_paths := file_paths, file_path := none }
    some { st with
      table := alistInsert st.table provider
        (alistInsert records (toString setup_id) record) }

/-! ## Downloader: `downloader.py`

The provider boundary (`SetupProvider.download_setup`) is modelled as a
function from attempt number to an `AttemptOutcome`: a returned
`ExtractResult`, an arbitrary raised exception (its message), or an
observed `asyncio.CancelledError`.  Awaited sleeps do not change state,
so only their durations are recorded. -/

/-- `DuplicateInfo` (deduplication.py). -/
structure DuplicateInfo where
  source_path : String
  existing_path : String
  file_hash : String
  file_size : Nat
deriving DecidableEq, Repr

/-- The extraction result a provider's `download_setup` returns, with the
fields `download_one` reads: `extracted_files`, `duplicates`,
`total_bytes_saved` and `files_renamed` (the providers construct it with
a `files_renamed` count alongside the dataclass fields of
deduplication.py's `ExtractResult`). -/
structure ExtractResult where
  extracted_files : List String
  duplicates : List DuplicateInfo
  files_renamed : Nat
deriving DecidableEq, Repr

/-- `ExtractResult.total_bytes_saved`. -/
def ExtractResult.total_bytes_saved (er : ExtractResult) : Nat :=
  (er.duplicates.map (fun d => d.file_size)).sum

/-- `SetupRecord` (models.py), restricted to the two fields the downloader
core and the ledger read: `id` and `updated_date` (already in ISO form).
The remaining fields (download_name, download_url, version strings, ...)
are consumed only by the out-of-scope provider adapters. -/
structure SetupRecord where
  id : Nat
  updated_date : String
deriving DecidableEq, Repr

/-- One awaited call to `provider.download_setup`. -/
inductive AttemptOutcome where
  | success (er : ExtractResult)
  | failure (msg : String)
  | cancelled
deriving DecidableEq, Repr

/-- `DownloadResult` (downloader.py). -/
structure DownloadResult where
  total_available : Nat
  skipped : Nat
  downloaded : Nat
  failed : Nat
  errors : List (String × String)
  duplicates_skipped : Nat
  bytes_saved : Nat
  files_renamed : Nat
deriving DecidableEq, Repr

/-- Outcome of one step of the `download_one` retry loop body. -/
inductive AttemptStep where
  | ok (st : DownloadState) (res : DownloadResult)
  | err (msg : String) (res : DownloadResult)
deriving Repr

/-- The two in-place `result` statistics updates of `download_one` on a
successful extraction (downloader.py lines 373-380): duplicate count and
bytes saved when duplicates were found, then the rename count. -/
def updateStats (res : DownloadResult) (er : ExtractResult) : DownloadResult :=
  let res1 :=
    if er.duplicates ≠ [] then
      { res with
        duplicates_skipped := res.duplicates_skipped + er.duplicates.length,
        bytes_saved := res.bytes_saved + er.total_bytes_saved }
    else res
  if er.files_renamed > 0 then
    { res1 with files_renamed := res1.files_renamed + er.files_renamed }
  else res1

/-- The `try` body of `download_one` for an attempt on which
`download_setup` returned `er` (downloader.py lines 360-408): the
empty-payload check, the extracted-file existence check, the
`updateStats` statistics mutations, and `mark_downloaded`.  An `err`
carries the raised message together with the `result` mutations that
happened before the raise; the ledger state is never mutated on an
`err` (every raise happens before `mark_downloaded` assigns). -/
def downloadAttemptBody (fs : String → Bool) (provider : String)
    (setup : SetupRecord) (st : DownloadState) (res : DownloadResult)
    (er : ExtractResult) : AttemptStep :=
  if er.extracted_files = [] ∧ er.duplicates = [] then
    .err "No .sto files extracted from ZIP" res
  else
    match er.extracted_files.find? (fun p => !fs p) with
    | some p => .err ("Extracted file does not exist: " ++ p) res
    | none =>
      let res2 := updateStats res er
      let files_for_state :=
        if er.extracted_files = [] ∧ er.duplicates ≠ [] then
          er.duplicates.map (fun d => d.existing_path)
        else er.extracted_files
      match st.mark_downloaded provider setup.id setup.updated_date files_for_state with
      | some st' => .ok st' res2
      | none => .err "State must be loaded before marking downloads" res2

/-- How `download_one` terminated. -/
inductive DLStatus where
  | success
  | failure
  | cancelled
  | skipped
deriving DecidableEq, Repr

/-- Trace of one `download_one` call: termination status, final ledger
state and aggregate result, the backoff sleeps performed (in seconds, in
order), the number of provider attempts started, and `last_error`. -/
structure DLResult where
  status : DLStatus
  st : DownloadState
  res : DownloadResult
  sleeps : List Nat
  attemptsMade : Nat
  lastError : String
deriving DecidableEq, Repr

/-- The `while retry_count <= self._max_retries` loop of `download_one`.
`fuel` is the number of loop iterations still admitted,
`maxRetries + 1 - retryCount`; a backoff sleep of `2 ^ (retry_count - 1)`
seconds precedes every retry that is still admitted.  `sleepsRev` holds
the sleeps so far in reverse; `made` counts attempts started. -/
def downloadOneLoop (fs : String → Bool) (provider : String) (maxRetries : Nat)
    (attempts : Nat → AttemptOutcome) (setup : SetupRecord) :
    Nat → Nat → DownloadState → DownloadResult → String → List Nat → Nat → DLResult
  | 0, _, st, res, lastError, sleepsRev, made =>
    -- loop exhausted: "All retries failed", return False
    ⟨.failure, st, res, sleepsRev.reverse, made, lastError⟩
  | fuel + 1, retryCount, st, res, lastError, sleepsRev, made =>
    match attempts retryCount with
    | .cancelled =>
      -- `except asyncio.CancelledError: raise`
      ⟨.cancelled, st, res, sleepsRev.reverse, made + 1, lastError⟩
    | .failure msg =>
      downloadOneLoop fs provider maxRetries attempts setup fuel (retryCount + 1)
        st res msg
        (if fuel > 0 then 2 ^ retryCount :: sleepsRev else sleepsRev) (made + 1)
    | .success er =>
      match downloadAttemptBody fs provider setup st res er with
      | .ok st' res' => ⟨.success, st', res', sleepsRev.reverse, made + 1, lastError⟩
      | .err msg res' =>
        downloadOneLoop fs provider maxRetries attempts setup fuel (retryCount + 1)
          st res' msg
          (if fuel > 0 then 2 ^ retryCount :: sleepsRev else sleepsRev) (made + 1)

/-- `SetupDownloader.download_one`. -/
def download_one (fs : String → Bool) (provider : String) (maxRetries : Nat)
    (attempts : Nat → AttemptOutcome) (setup : SetupRecord)
    (st : DownloadState) (res : DownloadResult) : DLResult :=
  downloadOneLoop fs provider maxRetries attempts setup (maxRetries + 1) 0 st res "" [] 0

/-- `SetupDownloader._download_with_semaphore`, after semaphore admission:
the `self._cancelled` early return, then `download_one` followed by the
`downloaded`/`failed` counter update.  The random pacing delay changes no
state and is not recorded.  A `CancelledError` from `download_one`
propagates before the counters are touched. -/
def downloadItem (fs : String → Bool) (provider : String) (maxRetries : Nat)
    (attempts : Nat → AttemptOutcome) (setup : SetupRecord)
    (st : DownloadState) (res : DownloadResult) (cancelledFlag : Bool) : DLResult :=
  if cancelledFlag then ⟨.skipped, st, res, [], 0, ""⟩
  else
    let r := download_one fs provider maxRetries attempts setup st res
    match r.status with
    | .success => { r with res := { r.res with downloaded := r.res.downloaded + 1 } }
    | .failure => { r with res := { r.res with failed := r.res.failed + 1 } }
    | _ => r

/-- `SetupDownloader._filter_new_setups`. -/
def filter_new_setups (fs : String → Bool) (st : DownloadState) (provider : String)
    (setups : List SetupRecord) : List SetupRecord :=
  setups.filter (fun s => !st.is_downloaded fs provider s.id s.updated_date)

/-- An all-zero `DownloadResult` with the given header counts. -/
def emptyResult (total skipped : Nat) : DownloadResult :=
  ⟨total, skipped, 0, 0, [], 0, 0, 0⟩

/-- `SetupDownloader._download_concurrent`, modelled as a sequential fold
in task order.  The semaphore only bounds how many attempts are in
flight; `DownloadResult` aggregation is commutative counters, so the
aggregate does not depend on the completion interleaving.  `attempts i k`
is the outcome of attempt `k` for the i-th task.  A task that observes
cancellation makes the whole gather raise (`error`). -/
def downloadConcurrent (fs : String → Bool) (provider : String) (maxRetries : Nat)
    (attempts : Nat → Nat → AttemptOutcome) :
    List SetupRecord → Nat → DownloadState → DownloadResult →
    Except String (DownloadResult × DownloadState)
  | [], _, st, res => .ok (res, st)
  | s :: rest, i, st, res =>
    let r := downloadItem fs provider maxRetries (attempts i) s st res false
    match r.status with
    | .cancelled => .error "Downloads cancelled"
    | _ => downloadConcurrent fs provider maxRetries attempts rest (i + 1) r.st r.res

/-- `SetupDownloader.download_all`.  `allSetups` is what
`provider.fetch_setups()` returned; `.error` is a raised exception
(`ValueError` when the state is not loaded, or propagated cancellation). -/
def download_all (fs : String → Bool) (st : DownloadState) (provider : String)
    (maxRetries : Nat) (attempts : Nat → Nat → AttemptOutcome)
    (allSetups : List SetupRecord) (dryRun : Bool) (limit : Option Nat) :
    Except String (DownloadResult × DownloadState) :=
  if !st.loaded then .error "State must be loaded before downloading"
  else if allSetups = [] then .ok (emptyResult 0 0, st)
  else
    let setups_to_download := filter_new_setups fs st provider allSetups
    let already_downloaded := allSetups.length - setups_to_download.length
    let limited :=
      match limit with
      | some l =>
        if setups_to_download.length > l then setups_to_download.take l
        else setups_to_download
      | none => setups_to_download
    let result := emptyResult allSetups.length already_downloaded
    if limited = [] then .ok (result, st)
    else if dryRun then .ok (result, st)
    else downloadConcurrent fs provider maxRetries attempts limited 0 st result

/-! ## Hash cache and duplicate index: `deduplication.py`

The filesystem is `String → Option FileInfo` (stat data plus content);
SHA-256 is the abstract digest parameter `hashFn` applied to content.
`Path.resolve()` is the identity on the already-resolved path strings. -/

/-- Stat data and content of one file. -/
structure FileInfo where
  mtime_ns : Nat
  size : Nat
  content : String
deriving DecidableEq, Repr

/-- One `FileHashCache` entry: `(hash, mtime_ns, size)`. -/
structure CacheEntry where
  hash : String
  mtime_ns : Nat
  size : Nat
deriving DecidableEq, Repr

/-- The in-memory `FileHashCache._cache`, keyed by resolved path. -/
abbrev HashCache := List (String × CacheEntry)

/-- `FileHashCache.get_hash`.  `none` is the `FileNotFoundError` raised by
`file_path.stat()` (which runs before the cache is consulted).  Otherwise
returns the digest together with the possibly-updated cache: the cached
digest when `(mtime_ns, size)` still match, else the freshly computed
`hashFn` of the content, stored as the new entry. -/
def get_hash (hashFn : String → String) (fs : String → Option FileInfo)
    (cache : HashCache) (path : String) : Option (String × HashCache) :=
  match fs path with
  | none => none
  | some info =>
    match alistLookup cache path with
    | some e =>
      if e.mtime_ns = info.mtime_ns ∧ e.size = info.size then some (e.hash, cache)
      else
        let h := hashFn info.content
        some (h, alistInsert cache path ⟨h, info.mtime_ns, info.size⟩)
    | none =>
      let h := hashFn info.content
      some (h, alistInsert cache path ⟨h, info.mtime_ns, info.size⟩)

/-- `hash_to_paths[file_hash].append(file_path)`, creating the group on
first sight of the hash (insertion order preserved, as in a dict). -/
def groupAdd (groups : List (String × List String)) (h p : String) :
    List (String × List String) :=
  match alistLookup groups h with
  | some l => alistInsert groups h (l ++ [p])
  | none => groups ++ [(h, [p])]

/-- `FileHashCache.preload_directory`: hash every file of the directory
listing `files` (the `rglob` result, in traversal order), grouping paths
by digest; files whose hashing raises `OSError` (including
`FileNotFoundError`) are skipped. -/
def preload_directory (hashFn : String → String) (fs : String → Option FileInfo) :
    List String → List (String × List String) → HashCache →
    List (String × List String) × HashCache
  | [], groups, cache => (groups, cache)
  | p :: rest, groups, cache =>
    match get_hash hashFn fs cache p with
    | none => preload_directory hashFn fs rest groups cache
    | some (h, cache') => preload_directory hashFn fs rest (groupAdd groups h p) cache'

/-- `sorted(paths, key=str)[0]`: the code-point-lexicographically smallest
path of a (nonempty) group. -/
def listMinStr : List String → String
  | [] => ""
  | x :: xs => xs.foldl (fun a b => if strLtB b a then b else a) x

/-- `DuplicateDetector.build_index`: scan the directory listing and map
every digest to the lexicographically smallest path among its group.
Returns the index together with the updated hash cache. -/
def build_index (hashFn : String → String) (fs : String → Option FileInfo)
    (files : List String) (cache : HashCache) :
    List (String × String) × HashCache :=
  let (groups, cache') := preload_directory hashFn fs files [] cache
  (groups.map (fun g => (g.1, listMinStr g.2)), cache')

/-- `DuplicateDetector.find_duplicate`.  An `OSError` while hashing yields
`none`; a hit on the index yields the canonical existing path unless the
queried path is that canonical entry itself. -/
def find_duplicate (hashFn : String → String) (fs : String → Option FileInfo)
    (index : List (String × String)) (cache : HashCache) (source_path : String) :
    Option DuplicateInfo × HashCache :=
  match fs source_path with
  | none => (none, cache)
  | some info =>
    match get_hash hashFn fs cache source_path with
    | none => (none, cache)
    | some (h, cache') =>
      match alistLookup index h with
      | none => (none, cache')
      | some existing_path =>
        if source_path = existing_path then (none, cache')
        else (some ⟨source_path, existing_path, h, info.size⟩, cache')

/-! ## Track matcher: `track_matcher.py`

String processing is embedded at the character-list level.  The inputs
of interest are ASCII, for which `Char.toLower`, `Char.isLower`,
`Char.isAlpha` and the ASCII whitespace test below agree with Python
(`str.lower`, the `[a-z]`, `[a-zA-Z]` and `\s` regex classes). -/

/-- Python regex `\s` (ASCII range): space, tab, newline, carriage
return, vertical tab, form feed. -/
def isPySpace (c : Char) : Bool :=
  c = ' ' || c = '\t' || c = '\n' || c = '\r' || c = Char.ofNat 11 || c = Char.ofNat 12

/-- Python `needle in hay` substring test. -/
def containsSub (hay sub : String) : Bool :=
  (List.range (hay.data.length + 1)).any (fun i => sub.data.isPrefixOf (hay.data.drop i))

/-- Python `s.lower()` (ASCII). -/
def strLower (s : String) : String := String.mk (s.data.map Char.toLower)

/-- Python `s.strip()` (ASCII whitespace). -/
def stripWs (cs : List Char) : List Char :=
  ((cs.dropWhile isPySpace).reverse.dropWhile isPySpace).reverse

/-- Python `s.split()`: split on whitespace runs, no empty words.
`acc` holds the current word reversed. -/
def splitWsAux : List Char → List Char → List (List Char)
  | [], acc => if acc.isEmpty then [] else [acc.reverse]
  | c :: cs, acc =>
    if isPySpace c then
      if acc.isEmpty then splitWsAux cs [] else acc.reverse :: splitWsAux cs []
    else splitWsAux cs (c :: acc)

/-- Python `" ".join(words)`. -/
def joinSpace : List (List Char) → List Char
  | [] => []
  | [w] => w
  | w :: ws => w ++ ' ' :: joinSpace ws

/-- `re.sub(r"^\[.*?\]\s*", "", s)`: when the string starts with `[` and
a `]` occurs with no newline before it (`.` does not match newlines),
drop through the first `]` and any following whitespace. -/
def stripBracketed (cs : List Char) : List Char :=
  match cs with
  | '[' :: rest =>
    let pre := rest.takeWhile (fun c => c ≠ ']')
    if pre.length < rest.length ∧ '\n' ∉ pre then
      (rest.drop (pre.length + 1)).dropWhile isPySpace
    else '[' :: rest
  | other => other

/-- `TrackMatcher._normalize_name`: lowercase, strip a bracketed leading
tag, drop characters outside `[a-z0-9\s]`, collapse whitespace. -/
def normalize_name (name : String) : String :=
  let cs := name.data.map Char.toLower
  let cs := stripBracketed cs
  let cs := cs.filter (fun c => c.isLower || c.isDigit || isPySpace c)
  String.mk (joinSpace (splitWsAux cs []))

/-- `normalized.replace(" ", "")`. -/
def removeSpaces (s : String) : String := String.mk (s.data.filter (fun c => c ≠ ' '))

/-- `TrackMatcher._normalize_name_compact`. -/
def normalize_name_compact (name : String) : String := removeSpaces (normalize_name name)

/-- First occurrence split: `hay.split(pat, 1)` when `pat` occurs,
returning the parts before and after the first occurrence. -/
def splitOnceAux (pat : List Char) : List Char → Option (List Char × List Char)
  | [] => none
  | c :: cs =>
    if pat.isPrefixOf (c :: cs) then some ([], (c :: cs).drop pat.length)
    else
      match splitOnceAux pat cs with
      | some (pre, post) => some (c :: pre, post)
      | none => none

/-- `TrackMatcher._extract_base_name`: drop a literal `[Retired]` tag,
then take the part before the first `" - "`, stripped. -/
def extract_base_name (track_name : String) : String :=
  let cs := track_name.data
  let cs := if "[Retired]".data.isPrefixOf cs then (cs.drop 9).dropWhile isPySpace else cs
  match splitOnceAux " - ".data cs with
  | some (pre, _) => String.mk (stripWs pre)
  | none => String.mk (stripWs cs)

/-- Insert a space at every boundary satisfying `p` (zero-width lookaround
substitution, applied to every adjacent pair). -/
def insertBoundary (p : Char → Char → Bool) : List Char → List Char
  | [] => []
  | [c] => [c]
  | a :: b :: rest =>
    if p a b then a :: ' ' :: insertBoundary p (b :: rest)
    else a :: insertBoundary p (b :: rest)

/-- `TrackMatcher._add_spaces_to_name`: CamelCase boundaries
(`(?<=[a-z])(?=[A-Z])`), then letter-digit boundaries
(`(?<=[a-zA-Z])(?=\d)`); unchanged when the name already has a space. -/
def add_spaces_to_name (name : String) : String :=
  if ' ' ∈ name.data then name
  else
    let r := insertBoundary (fun x y => x.isLower && y.isUpper) name.data
    let r := insertBoundary (fun x y => x.isAlpha && y.isDigit) r
    String.mk r

/-- `TrackMatcher.CONFIG_SUFFIXES`, in source (dict insertion) order. -/
def CONFIG_SUFFIXES : List (String × List String) :=
  [("road", ["road"]), ("oval", ["oval"]), ("gp", ["gp", "grand prix"]),
   ("grandprix", ["gp", "grand prix"]), ("moto", ["moto", "motorcycle"]),
   ("full", ["full"]), ("fullcourse", ["full"]), ("short", ["short"]),
   ("outer", ["outer"]), ("inner", ["inner"]), ("north", ["north"]),
   ("south", ["south"]), ("east", ["east"]), ("west", ["west"]),
   ("combined", ["combined"]), ("national", ["national"]), ("club", ["club"]),
   ("endurance", ["endurance", "24h", "24hr"]), ("24h", ["24h", "24hr", "endurance"])]

/-- `sorted(CONFIG_SUFFIXES.items(), key=lambda x: len(x[0]), reverse=True)`:
the suffix keys by decreasing length; Python sorting is stable, so keys of
equal length stay in dict insertion order. -/
def SUFFIXES_BY_LENGTH_DESC : List String :=
  ["fullcourse", "grandprix", "endurance", "combined", "national",
   "short", "outer", "inner", "north", "south",
   "road", "oval", "moto", "full", "east", "west", "club",
   "24h", "gp"]

/-- `TrackMatcher._parse_compound_name`: strip non-alphanumerics and
lowercase, peel the longest known configuration suffix off the end
(when a proper suffix), and CamelCase-space the remaining original
prefix. -/
def parse_compound_name (name : String) : String × Option String :=
  let cleaned := (name.data.filter (fun c => c.isAlpha || c.isDigit)).map Char.toLower
  match SUFFIXES_BY_LENGTH_DESC.find? (fun sfx =>
      sfx.data.isSuffixOf cleaned && cleaned.length > sfx.data.length) with
  | some sfx =>
    (add_spaces_to_name (String.mk (name.data.take (name.data.length - sfx.data.length))),
     some sfx)
  | none => (add_spaces_to_name name, none)

/-- `TrackMatcher.ROAD_CATEGORIES` (a Python set; only `any`-style
membership scans are performed on it, so order is immaterial). -/
def ROAD_CATEGORIES : List String :=
  ["gt3", "gt4", "gte", "lmp2", "lmp3", "gtp", "imsa", "wec"]

/-- `TrackMatcher.OVAL_CATEGORIES`. -/
def OVAL_CATEGORIES : List String :=
  ["nascar", "arca", "indycar oval", "cup", "xfinity", "truck"]

/-- `TrackMatcher.DEFAULT_ROAD_CONFIGS`. -/
def DEFAULT_ROAD_CONFIGS : List String := ["full", "gp", "grand prix"]

/-- `TrackMatcher.DEFAULT_OVAL_CONFIGS`. -/
def DEFAULT_OVAL_CONFIGS : List String := ["oval", "superspeedway"]

/-- `TrackMatcher._should_prefer_oval`: empty/absent hints and unknown
hints prefer road; any oval-category substring wins over the road check. -/
def should_prefer_oval (category_hint : Option String) : Bool :=
  match category_hint with
  | none => false
  | some h =>
    if h = "" then false
    else
      let hl := strLower h
      if OVAL_CATEGORIES.any (fun c => containsSub hl c) then true
      else if ROAD_CATEGORIES.any (fun c => containsSub hl c) then false
      else false

/-! ### `difflib.SequenceMatcher(None, a, b).ratio()`

The strings compared are shorter than 200 characters, so the autojunk
heuristic never applies and no element is junk.  `find_longest_match`
then returns, among the longest common blocks inside the window, the one
with smallest start in `a`, then smallest start in `b`, and `ratio` is
`2 * (total matched) / (len(a) + len(b))` (1.0 when both are empty). -/

/-- Length of the common run starting at the heads of two suffixes. -/
def matchRun : List Char → List Char → Nat
  | a :: as, b :: bs => if a = b then matchRun as bs + 1 else 0
  | _, _ => 0

/-- All candidate blocks `(i, j, size)` of the window, `i` then `j`
ascending, sizes clipped to the window. -/
def flmCandidates (a b : List Char) (alo ahi blo bhi : Nat) :
    List (Nat × Nat × Nat) :=
  (List.range (ahi - alo)).flatMap (fun di =>
    (List.range (bhi - blo)).map (fun dj =>
      let i := alo + di
      let j := blo + dj
      (i, j, min (matchRun (a.drop i) (b.drop j)) (min (ahi - i) (bhi - j)))))

/-- Keep the first candidate of strictly greatest size (matching the
`>`-only update of difflib's scan order). -/
def flmPick : List (Nat × Nat × Nat) → Nat × Nat × Nat → Nat × Nat × Nat
  | [], best => best
  | c :: cs, best => flmPick cs (if c.2.2 > best.2.2 then c else best)

/-- `SequenceMatcher.find_longest_match` on the window
`a[alo:ahi]`, `b[blo:bhi]` with no junk. -/
def findLongestMatch (a b : List Char) (alo ahi blo bhi : Nat) : Nat × Nat × Nat :=
  flmPick (flmCandidates a b alo ahi blo bhi) (alo, blo, 0)

theorem flmPick_mem (cs : List (Nat × Nat × Nat)) (best : Nat × Nat × Nat) :
    flmPick cs best ∈ best :: cs := by
  induction cs generalizing best with
  | nil => simp [flmPick]
  | cons c rest ih =>
    by_cases h : c.2.2 > best.2.2
    · have := ih (if c.2.2 > best.2.2 then c else best)
      rw [if_pos h] at this
      simp only [flmPick, if_pos h]
      rcases List.mem_cons.mp this with h1 | h1
      · simp [h1]
      · simp [List.mem_cons.mpr (Or.inr (List.mem_cons.mpr (Or.inr h1)))]
    · have := ih (if c.2.2 > best.2.2 then c else best)
      rw [if_neg h] at this
      simp only [flmPick, if_neg h]
      rcases List.mem_cons.mp this with h1 | h1
      · simp [h1]
      · simp [List.mem_cons.mpr (Or.inr (List.mem_cons.mpr (Or.inr h1)))]

theorem flm_bounds (a b : List Char) (alo ahi blo bhi : Nat)
    (h : 0 < (findLongestMatch a b alo ahi blo bhi).2.2) :
    alo ≤ (findLongestMatch a b alo ahi blo bhi).1 ∧
    (findLongestMatch a b alo ahi blo bhi).1 < ahi ∧
    (findLongestMatch a b alo ahi blo bhi).1 +
      (findLongestMatch a b alo ahi blo bhi).2.2 ≤ ahi ∧
    blo ≤ (findLongestMatch a b alo ahi blo bhi).2.1 ∧
    (findLongestMatch a b alo ahi blo bhi).2.1 < bhi ∧
    (findLongestMatch a b alo ahi blo bhi).2.1 +
      (findLongestMatch a b alo ahi blo bhi).2.2 ≤ bhi := by
  have hmem := flmPick_mem (flmCandidates a b alo ahi blo bhi) (alo, blo, 0)
  rw [show flmPick (flmCandidates a b alo ahi blo bhi) (alo, blo, 0) =
      findLongestMatch a b alo ahi blo bhi from rfl] at hmem
  rcases List.mem_cons.mp hmem with h1 | h1
  · rw [h1] at h; simp at h
  · simp only [flmCandidates, List.mem_flatMap, List.mem_map, List.mem_range] at h1
    obtain ⟨di, hdi, dj, hdj, heq⟩ := h1
    have hi : (findLongestMatch a b alo ahi blo bhi).1 = alo + di := by
      rw [← heq]
    have hj : (findLongestMatch a b alo ahi blo bhi).2.1 = blo + dj := by
      rw [← heq]
    have hk : (findLongestMatch a b alo ahi blo bhi).2.2 =
        min (matchRun (a.drop (alo + di)) (b.drop (blo + dj)))
          (min (ahi - (alo + di)) (bhi - (blo + dj))) := by
      rw [← heq]
    rw [hi, hj]
    rw [hk] at h ⊢
    omega

/-- Total size of all matching blocks of `get_matching_blocks` restricted
to a window (adjacent-block merging does not change the total). -/
def matchSum (a b : List Char) (alo ahi blo bhi : Nat) : Nat :=
  if h : 0 < (findLongestMatch a b alo ahi blo bhi).2.2 then
    matchSum a b alo (findLongestMatch a b alo ahi blo bhi).1
      blo (findLongestMatch a b alo ahi blo bhi).2.1 +
    (findLongestMatch a b alo ahi blo bhi).2.2 +
    matchSum a b
      ((findLongestMatch a b alo ahi blo bhi).1 +
        (findLongestMatch a b alo ahi blo bhi).2.2) ahi
      ((findLongestMatch a b alo ahi blo bhi).2.1 +
        (findLongestMatch a b alo ahi blo bhi).2.2) bhi
  else 0
termination_by (ahi - alo) + (bhi - blo)
decreasing_by
  · have hb := flm_bounds a b alo ahi blo bhi h
    omega
  · have hb := flm_bounds a b alo ahi blo bhi h
    omega

/-- `SequenceMatcher(None, a, b).ratio()` as an exact rational. -/
def seqRatio (a b : String) : ℚ :=
  let la := a.data.length
  let lb := b.data.length
  if la + lb = 0 then 1
  else (2 * (matchSum a.data b.data 0 la 0 lb) : ℚ) / (la + lb)

/-- `TrackData` (track_matcher.py). -/
structure TrackData where
  track_id : Nat
  track_name : String
  track_dirpath : String
  config_name : String
  category : String
  retired : Bool
  is_oval : Bool
  is_dirt : Bool
deriving DecidableEq, Repr

/-- `TrackMatchResult` (track_matcher.py); confidence as exact rational. -/
structure TrackMatchResult where
  track_dirpath : Option String
  confidence : ℚ
  ambiguous : Bool
  matched_track_name : Option String
  matched_config : Option String
deriving DecidableEq, Repr

/-- `TrackMatchResult()` with all defaults. -/
def emptyMatch : TrackMatchResult := ⟨none, 0, false, none, none⟩

/-- `if result.track_dirpath:` — truthy means present and nonempty. -/
def dirpathTruthy : Option String → Bool
  | some s => s ≠ ""
  | none => false

/-- `TrackMatcher._name_index`. -/
abbrev NameIndex := List (String × List TrackData)

/-- `if key not in index: index[key] = []` followed by
`index[key].append(track)`. -/
def idxAppend (idx : NameIndex) (k : String) (t : TrackData) : NameIndex :=
  match alistLookup idx k with
  | some l => alistInsert idx k (l ++ [t])
  | none => idx ++ [(k, [t])]

/-- Same, but the append is guarded by `track not in index[key]`
(the dirpath-base indexing step). -/
def idxAppendIfNew (idx : NameIndex) (k : String) (t : TrackData) : NameIndex :=
  match alistLookup idx k with
  | some l => if t ∈ l then idx else alistInsert idx k (l ++ [t])
  | none => idx ++ [(k, [t])]

/-- `track_dirpath.replace("\\", "/").split("/")[0].lower()`: the first
path segment, lowercased. -/
def dirpathBase (dirpath : String) : String :=
  strLower (String.mk (dirpath.data.takeWhile (fun c => c ≠ '/' ∧ c ≠ '\\')))

/-- One track's contribution to `TrackMatcher._build_search_index`:
index under the normalized base name, additionally under the normalized
full name when different, and under the nonempty dirpath base segment
when the track is not already listed there. -/
def buildIndexStep (idx : NameIndex) (t : TrackData) : NameIndex :=
  let base_key := normalize_name (extract_base_name t.track_name)
  let idx1 := idxAppend idx base_key t
  let full_key := normalize_name t.track_name
  let idx2 := if full_key ≠ base_key then idxAppend idx1 full_key t else idx1
  let db := dirpathBase t.track_dirpath
  if db ≠ "" then idxAppendIfNew idx2 db t else idx2

/-- `TrackMatcher._build_search_index` over the loaded track list. -/
def build_search_index (tracks : List TrackData) : NameIndex :=
  tracks.foldl buildIndexStep []

/-- `config_keywords`: the `CONFIG_SUFFIXES` entry for a truthy config
hint that is a known suffix, else empty. -/
def configKeywords (config_hint : Option String) : List String :=
  match config_hint with
  | some ch => if ch ≠ "" then (alistLookup CONFIG_SUFFIXES ch).getD [] else []
  | none => []

/-- The disambiguation score of one candidate in
`TrackMatcher._select_best_config`: +5 for a config-keyword hit, +2 for
oval/road agreement with the hint preference, +1 for a default config
name, +0.5 for non-dirt. -/
def candScore (prefer_oval : Bool) (config_keywords : List String)
    (t : TrackData) : ℚ :=
  let config_lower := strLower t.config_name
  let dirpath_lower := strLower t.track_dirpath
  (if config_keywords.any
      (fun kw => containsSub config_lower kw || containsSub dirpath_lower kw)
   then 5 else 0)
  + (if (prefer_oval && t.is_oval) || (!prefer_oval && !t.is_oval) then 2 else 0)
  + (if (if prefer_oval then DEFAULT_OVAL_CONFIGS else DEFAULT_ROAD_CONFIGS).any
        (fun d => containsSub config_lower d || containsSub dirpath_lower d)
     then 1 else 0)
  + (if !t.is_dirt then (1 : ℚ)/2 else 0)

/-- Retired filtering: keep non-retired candidates when any exist. -/
def retainCandidates (candidates : List TrackData) : List TrackData :=
  let non_retired := candidates.filter (fun t => !t.retired)
  if non_retired ≠ [] then non_retired else candidates

/-- The `scored` list of `_select_best_config`, in candidate order. -/
def scoredCandidates (candidates : List TrackData)
    (category_hint config_hint : Option String) : List (ℚ × TrackData) :=
  let prefer_oval := should_prefer_oval category_hint
  let kws := configKeywords config_hint
  candidates.map (fun t => (candScore prefer_oval kws t, t))

/-- Stable insertion: place `x` after every already-placed element with a
score ≥ its own. -/
def insertDesc {α : Type} (x : ℚ × α) : List (ℚ × α) → List (ℚ × α)
  | [] => [x]
  | y :: ys => if x.1 > y.1 then x :: y :: ys else y :: insertDesc x ys

/-- `scored.sort(key=lambda x: x[0], reverse=True)`: stable descending
sort by score (Python sorting is stable, also with `reverse=True`). -/
def stableSortDesc {α : Type} (l : List (ℚ × α)) : List (ℚ × α) :=
  l.foldl (fun acc x => insertDesc x acc) []

/-- `TrackMatcher._select_best_config`. -/
def select_best_config (candidates : List TrackData)
    (category_hint config_hint : Option String) (confidence : ℚ) :
    TrackMatchResult :=
  if candidates = [] then emptyMatch
  else
    match retainCandidates candidates with
    | [] => emptyMatch  -- unreachable: retainCandidates keeps nonemptiness
    | [t] =>
      ⟨some t.track_dirpath, confidence, false, some t.track_name, some t.config_name⟩
    | c1 :: c2 :: crest =>
      let scored := scoredCandidates (c1 :: c2 :: crest) category_hint config_hint
      match stableSortDesc scored with
      | [] => emptyMatch  -- unreachable: sorting preserves length
      | top :: rest =>
        let top_score := top.1
        let similar_count :=
          (top :: rest).countP (fun s => decide (s.1 ≥ top_score - 1/10))
        let ambiguous := decide (1 < similar_count)
        ⟨some top.2.track_dirpath,
         if ambiguous then confidence * (9/10) else confidence,
         ambiguous, some top.2.track_name, some top.2.config_name⟩

/-- Order-preserving dedup by `track_id` (`seen_ids` logic of tier 2). -/
def dedupeById (seen : List Nat) : List TrackData → List TrackData
  | [] => []
  | t :: ts =>
    if t.track_id ∈ seen then dedupeById seen ts
    else t :: dedupeById (t.track_id :: seen) ts

/-- `TrackMatcher._match_name`: exact tier (spaced then compact form),
substring tier at confidence 0.8, then fuzzy tier over the catalog. -/
def match_name (tracks : List TrackData) (index : NameIndex)
    (track_name : String) (category_hint config_hint : Option String) :
    TrackMatchResult :=
  let nq := normalize_name track_name
  let cq := normalize_name_compact track_name
  match alistLookup index nq with
  | some candidates => select_best_config candidates category_hint config_hint 1
  | none =>
    match (if cq ≠ nq then alistLookup index cq else none) with
    | some candidates => select_best_config candidates category_hint config_hint 1
    | none =>
      let substring_matches := index.foldl (fun acc kv =>
        if containsSub kv.1 nq || containsSub nq kv.1 ||
           containsSub kv.1 cq || containsSub cq kv.1
        then acc ++ kv.2 else acc) []
      if substring_matches ≠ [] then
        select_best_config (dedupeById [] substring_matches)
          category_hint config_hint (8/10)
      else
        let best_matches := tracks.filterMap (fun t =>
          let bn := normalize_name (extract_base_name t.track_name)
          let cn := removeSpaces bn
          let r := max (seqRatio nq bn) (seqRatio cq cn)
          if r ≥ 1/2 then some (r, t) else none)
        match stableSortDesc best_matches with
        | [] => emptyMatch
        | bm :: bms =>
          let top_score := bm.1
          let similar := ((bm :: bms).filter
            (fun s => decide (s.1 ≥ top_score - 1/10))).map (fun s => s.2)
          select_best_config similar category_hint config_hint top_score

/-- `TrackMatcher.match` on a loaded matcher (tracks plus the index built
from them): compound-name parse, match on the original name, then on the
derived base name when it differs (case-insensitively). -/
def matchTrack (tracks : List TrackData) (index : NameIndex)
    (track_name : String) (category_hint : Option String) : TrackMatchResult :=
  if track_name = "" then emptyMatch
  else
    let parsed := parse_compound_name track_name
    let r1 := match_name tracks index track_name category_hint parsed.2
    if dirpathTruthy r1.track_dirpath then r1
    else if strLower parsed.1 ≠ strLower track_name then
      let r2 := match_name tracks index parsed.1 category_hint parsed.2
      if dirpathTruthy r2.track_dirpath then r2 else emptyMatch
    else emptyMatch

/-- The digest a file would hash to, when it exists. -/
def hashOfFile (hashFn : String → String) (fs : String → Option FileInfo)
    (q : String) : Option String :=
  (fs q).map (fun i => hashFn i.content)

/-- The `HashEntry` validity invariant of the cache: an entry whose
recorded `(mtime_ns, size)` still match the live file carries that
file's digest. -/
def cacheCoherent (hashFn : String → String) (fs : String → Option FileInfo)
    (cache : HashCache) : Prop :=
  ∀ p e info, alistLookup cache p = some e → fs p = some info →
    e.mtime_ns = info.mtime_ns → e.size = info.size →
    e.hash = hashFn info.content

/-- A small concrete filesystem used by the dedup witnesses: two files
with identical content `X` and one with content `Y`. -/
def dedupDemoFs : String → Option FileInfo :=
  fun q =>
    if q = "/t/a.sto" then some ⟨3, 1, "Y"⟩
    else if q = "/t/b.sto" then some ⟨4, 1, "X"⟩
    else if q = "/t/c.sto" then some ⟨5, 1, "X"⟩
    else none

/-- Demonstration catalog records for the matcher claims: a fictional
venue with an oval layout, a road (club) layout and a second road
layout. -/
def wTrackOval : TrackData :=
  ⟨1, "Widmark - Oval", "widmark\\oval", "Oval", "oval", false, true, false⟩

/-- Road (club) layout of the demonstration venue. -/
def wTrackRoad : TrackData :=
  ⟨2, "Widmark - Club", "widmark\\club", "Club", "road", false, false, false⟩

/-- Second road layout of the demonstration venue, scoring identically to
`wTrackRoad` under a road-preferring hint. -/
def wTrackRoadAlt : TrackData :=
  ⟨3, "Widmark - Alt", "widmark\\alt", "Alt", "road", false, false, false⟩

/-- A venue whose base name itself ends in the configuration keyword
`road`: oval layout. -/
def cxTrackOval : TrackData :=
  ⟨4, "Widmark Road - Oval", "widmark\\oval", "Oval", "oval", false, true, false⟩

/-- Road-course layout of the `Widmark Road` venue; its config name
contains the keyword `road`. -/
def cxTrackRoad : TrackData :=
  ⟨5, "Widmark Road - Road Course", "widmark\\roadcourse", "Road Course",
   "road", false, false, false⟩

/-! ## Basic lemmas about the embedding scaffolding -/

theorem alistLookup_insert {α : Type} (l : List (String × α)) (k k' : String) (v : α) :
    alistLookup (alistInsert l k v) k' =
      if k' = k then some v else alistLookup l k' := by
  induction l with
  | nil =>
    by_cases h : k' = k
    · subst h; simp [alistInsert, alistLookup]
    · simp [alistInsert, alistLookup, h, Ne.symm h]
  | cons hd tl ih =>
    obtain ⟨hk, hv⟩ := hd
    by_cases h1 : hk = k
    · subst h1
      by_cases h2 : k' = hk
      · subst h2; simp [alistInsert, alistLookup]
      · simp [alistInsert, alistLookup, h2, Ne.symm h2]
    · by_cases h2 : hk = k'
      · subst h2
        simp [alistInsert, alistLookup, h1]
      · simp [alistInsert, alistLookup, h1, h2, ih]

theorem listLtB_irrefl (l : List Char) : listLtB l l = false := by
  induction l with
  | nil => rfl
  | cons a as ih => simp [listLtB, ih]

theorem listLtB_trans {a b c : List Char} :
    listLtB a b = true → listLtB b c = true → listLtB a c = true := by
  induction a generalizing b c with
  | nil =>
    intro h1 h2
    cases b with
    | nil => exact absurd h1 (by simp [listLtB])
    | cons y ys =>
      cases c with
      | nil => exact absurd h2 (by simp [listLtB])
      | cons z zs => simp [listLtB]
  | cons x xs ih =>
    intro h1 h2
    cases b with
    | nil => exact absurd h1 (by simp [listLtB])
    | cons y ys =>
      cases c with
      | nil => exact absurd h2 (by simp [listLtB])
      | cons z zs =>
        simp only [listLtB] at h1 h2 ⊢
        rcases lt_trichotomy x y with hxy | hxy | hxy
        · rcases lt_trichotomy y z with hyz | hyz | hyz
          · rw [if_pos (lt_trans hxy hyz)]
          · subst hyz; rw [if_pos hxy]
          · rw [if_neg (not_lt_of_gt hyz), if_pos hyz] at h2
            exact absurd h2 (by simp)
        · subst hxy
          rw [if_neg (lt_irrefl x), if_neg (lt_irrefl x)] at h1
          rcases lt_trichotomy x z with hxz | hxz | hxz
          · rw [if_pos hxz]
          · subst hxz
            rw [if_neg (lt_irrefl x), if_neg (lt_irrefl x)] at h2 ⊢
            exact ih h1 h2
          · rw [if_neg (not_lt_of_gt hxz), if_pos hxz] at h2
            exact absurd h2 (by simp)
        · rw [if_neg (not_lt_of_gt hxy), if_pos hxy] at h1
          exact absurd h1 (by simp)

theorem listLtB_total (a b : List Char) :
    listLtB a b = false → listLtB b a = false → a = b := by
  induction a generalizing b with
  | nil =>
    intro h1 _
    cases b with
    | nil => rfl
    | cons y ys => exact absurd h1 (by simp [listLtB])
  | cons x xs ih =>
    intro h1 h2
    cases b with
    | nil => exact absurd h2 (by simp [listLtB])
    | cons y ys =>
      simp only [listLtB] at h1 h2
      rcases lt_trichotomy x y with hxy | hxy | hxy
      · rw [if_pos hxy] at h1; exact absurd h1 (by simp)
      · subst hxy
        rw [if_neg (lt_irrefl x), if_neg (lt_irrefl x)] at h1 h2
        rw [ih ys h1 h2]
      · rw [if_neg (not_lt_of_gt hxy), if_pos hxy] at h2
        exact absurd h2 (by simp)

/-! ## Shared lemmas about the ledger -/

theorem lookupRecord_after_mark (st : DownloadState) (provider : String)
    (setup_id : Nat) (u : String) (paths : List String) (st' : DownloadState)
    (h : st.mark_downloaded provider setup_id u paths = some st') :
    st'.loaded = st.loaded ∧
    st'.lookupRecord provider setup_id = some ⟨u, paths, none⟩ := by
  unfold DownloadState.mark_downloaded at h
  by_cases hl : st.loaded
  · rw [if_neg (by simp [hl])] at h
    obtain rfl : _ = st' := Option.some_injective _ h
    refine ⟨rfl, ?_⟩
    unfold DownloadState.lookupRecord
    simp [alistLookup_insert]
  · rw [if_pos (by simp [hl])] at h
    exact absurd h (by simp)

theorem is_downloaded_after_mark (st : DownloadState) (provider : String)
    (setup_id : Nat) (u : String) (paths : List String) (st' : DownloadState)
    (fs : String → Bool)
    (hm : st.mark_downloaded provider setup_id u paths = some st')
    (hl : st.loaded = true) (hne : paths ≠ []) (hex : paths.any fs = true) :
    st'.is_downloaded fs provider setup_id u = true := by
  unfold DownloadState.mark_downloaded at hm
  rw [if_neg (by simp [hl])] at hm
  obtain rfl : _ = st' := Option.some_injective _ hm
  unfold DownloadState.is_downloaded
  have hpaths : (DownloadRecord.mk u paths none).get_all_paths = paths := by
    unfold DownloadRecord.get_all_paths
    simp [hne]
  simp [hl, alistLookup_insert, hpaths, hne, hex]

/-- Claim C2: for a loaded ledger, `is_downloaded` returns false exactly
when the `(provider, id)` pair is absent, or the stored update-time
string differs from the supplied one, or none of the stored file paths
(via `get_all_paths`, so an empty path list never counts as existing)
exists on disk; otherwise it returns true. -/
theorem C2_is_downloaded_iff (fs : String → Bool) (st : DownloadState)
    (provider : String) (setup_id : Nat) (updated_date : String)
    (hl : st.loaded = true) :
    st.is_downloaded fs provider setup_id updated_date = false ↔
      st.lookupRecord provider setup_id = none ∨
      ∃ r, st.lookupRecord provider setup_id = some r ∧
        (r.updated_date ≠ updated_date ∨ ∀ p ∈ r.get_all_paths, fs p = false) := by
  unfold DownloadState.is_downloaded DownloadState.lookupRecord
  rw [hl]
  simp only [Bool.not_true, Bool.false_eq_true, if_false]
  rcases h1 : alistLookup st.table provider with _ | records
  · simp [h1]
  · simp only [h1]
    rcases h2 : alistLookup records (toString setup_id) with _ | record
    · simp [h2]
    · simp only [h2]
      by_cases h3 : record.updated_date = updated_date
      · by_cases h4 : record.get_all_paths = []
        · simp [h3, h4]
        · simp only [h3, ne_eq, not_true_eq_false, if_false, h4]
          constructor
          · intro h5
            refine Or.inr ⟨record, rfl, Or.inr ?_⟩
            intro p hp
            by_contra hfp
            have hany : record.get_all_paths.any fs = true :=
              List.any_eq_true.mpr ⟨p, hp, by simpa using hfp⟩
            simp [h4, hany] at h5
          · rintro (h5 | ⟨r, hr, h5 | h5⟩)
            · exact absurd h5 (by simp)
            · obtain rfl : record = r := by simpa using hr
              exact absurd h3 h5
            · obtain rfl : record = r := by simpa using hr
              rw [List.any_eq_false]
              intro p hp
              simp [h5 p hp]
      · simp only [ne_eq, h3, not_false_eq_true, if_true]
        constructor
        · intro _
          exact Or.inr ⟨record, rfl, Or.inl h3⟩
        · intro _; trivial

/-- Witness for C2: on a loaded empty ledger the theorem's right side
holds by the absence disjunct, so `is_downloaded` is false. -/
theorem C2_is_downloaded_iff_witness :
    (DownloadState.mk [] true).is_downloaded (fun _ => false) "gofast" 1
      "2024-01-01T00:00:00" = false :=
  (C2_is_downloaded_iff (fun _ => false) (DownloadState.mk [] true) "gofast" 1
    "2024-01-01T00:00:00" rfl).mpr (Or.inl rfl)

/-- Claim C10: a record with an empty `file_paths` but a set (nonempty)
legacy `file_path` is usable: `get_all_paths` yields the one-element
legacy list, and with a matching update time and the legacy file on disk
`is_downloaded` is true; a nonempty `file_paths` makes the legacy field
ignored. -/
theorem C10_legacy_file_path (r : DownloadRecord) (p : String)
    (fs : String → Bool) (st : DownloadState) (provider : String)
    (setup_id : Nat) (u : String) :
    (r.file_paths = [] → r.file_path = some p → p ≠ "" → r.get_all_paths = [p]) ∧
    (r.file_paths ≠ [] → r.get_all_paths = r.file_paths) ∧
    (st.loaded = true → st.lookupRecord provider setup_id = some r →
      r.file_paths = [] → r.file_path = some p → p ≠ "" →
      r.updated_date = u → fs p = true →
      st.is_downloaded fs provider setup_id u = true) := by
  refine ⟨?_, ?_, ?_⟩
  · intro h1 h2 h3
    unfold DownloadRecord.get_all_paths
    simp [h1, h2, h3]
  · intro h1
    unfold DownloadRecord.get_all_paths
    simp [h1]
  · intro hl hrec h1 h2 h3 h4 h5
    have hpaths : r.get_all_paths = [p] := by
      unfold DownloadRecord.get_all_paths
      simp [h1, h2, h3]
    unfold DownloadState.lookupRecord at hrec
    unfold DownloadState.is_downloaded
    rw [hl]
    simp only [Bool.not_true, Bool.false_eq_true, if_false]
    rcases hq : alistLookup st.table provider with _ | records
    · rw [hq] at hrec; exact absurd hrec (by simp)
    · simp only [hq] at hrec ⊢
      simp [hrec, hpaths, h4, h5]

/-- Witness for C10 at a concrete legacy ledger record. -/
theorem C10_legacy_file_path_witness :
    (DownloadRecord.mk "T1" [] (some "/s/a.sto")).get_all_paths = ["/s/a.sto"] ∧
    (DownloadState.mk [("gofast", [("7", DownloadRecord.mk "T1" [] (some "/s/a.sto"))])]
        true).is_downloaded (fun q => q = "/s/a.sto") "gofast" 7 "T1" = true := by
  have h := C10_legacy_file_path (DownloadRecord.mk "T1" [] (some "/s/a.sto"))
    "/s/a.sto" (fun q => q = "/s/a.sto")
    (DownloadState.mk [("gofast", [("7", DownloadRecord.mk "T1" [] (some "/s/a.sto"))])] true)
    "gofast" 7 "T1"
  exact ⟨h.1 rfl rfl (by decide), h.2.2 rfl (by decide) rfl rfl (by decide) rfl (by decide)⟩

/-- Claim C9: when an attempt succeeds with zero extracted files but a
nonempty duplicates list, `download_one` treats the item as a success and
records the duplicates' existing canonical paths in the ledger, so a
later `is_downloaded` on the unchanged item is true whenever one of
those existing files is still on disk. -/
theorem C9_duplicates_only_success (fs : String → Bool) (provider : String)
    (maxRetries : Nat) (attempts : Nat → AttemptOutcome) (setup : SetupRecord)
    (st : DownloadState) (res : DownloadResult) (er : ExtractResult)
    (hatt : attempts 0 = .success er)
    (hext : er.extracted_files = [])
    (hdup : er.duplicates ≠ [])
    (hl : st.loaded = true) :
    (download_one fs provider maxRetries attempts setup st res).status = .success ∧
    (download_one fs provider maxRetries attempts setup st res).st.lookupRecord
        provider setup.id =
      some ⟨setup.updated_date, er.duplicates.map (fun d => d.existing_path), none⟩ ∧
    ∀ fs2 : String → Bool,
      (er.duplicates.map (fun d => d.existing_path)).any fs2 = true →
      (download_one fs provider maxRetries attempts setup st res).st.is_downloaded
        fs2 provider setup.id setup.updated_date = true := by
  have hmark : st.mark_downloaded provider setup.id setup.updated_date
      (er.duplicates.map (fun d => d.existing_path)) =
    some { st with
      table := alistInsert st.table provider
        (alistInsert ((alistLookup st.table provider).getD []) (toString setup.id)
          ⟨setup.updated_date, er.duplicates.map (fun d => d.existing_path), none⟩) } := by
    unfold DownloadState.mark_downloaded
    rw [if_neg (by simp [hl])]
  have hbody : downloadAttemptBody fs provider setup st res er =
      .ok { st with
        table := alistInsert st.table provider
          (alistInsert ((alistLookup st.table provider).getD []) (toString setup.id)
            ⟨setup.updated_date, er.duplicates.map (fun d => d.existing_path), none⟩) }
        (updateStats res er) := by
    unfold downloadAttemptBody
    rw [if_neg (by simp [hdup])]
    rw [hext]
    simp only [List.find?_nil]
    simp only [hdup, hext, ne_eq, not_false_eq_true, if_true, and_self]
    rw [hmark]
  have hrun : download_one fs provider maxRetries attempts setup st res =
      ⟨.success,
       { st with
         table := alistInsert st.table provider
           (alistInsert ((alistLookup st.table provider).getD []) (toString setup.id)
             ⟨setup.updated_date, er.duplicates.map (fun d => d.existing_path), none⟩) },
       updateStats res er, [], 1, ""⟩ := by
    unfold download_one downloadOneLoop
    rw [hatt]
    simp only [hbody]
    rfl
  refine ⟨by rw [hrun], ?_, ?_⟩
  · rw [hrun]
    unfold DownloadState.lookupRecord
    simp [alistLookup_insert]
  · intro fs2 hex
    rw [hrun]
    have hne : er.duplicates.map (fun d => d.existing_path) ≠ [] := by
      simpa using hdup
    exact is_downloaded_after_mark st provider setup.id setup.updated_date _ _ fs2
      hmark hl hne hex

/-- Witness for C9: one duplicate-only attempt on a loaded empty ledger. -/
theorem C9_duplicates_only_success_witness :
    ((download_one (fun _ => true) "gofast" 3
        (fun _ => .success ⟨[], [⟨"/new/a.sto", "/old/a.sto", "h1", 10⟩], 0⟩)
        ⟨5, "T1"⟩ (DownloadState.mk [] true) (emptyResult 1 0)).status = DLStatus.success) ∧
    ((download_one (fun _ => true) "gofast" 3
        (fun _ => .success ⟨[], [⟨"/new/a.sto", "/old/a.sto", "h1", 10⟩], 0⟩)
        ⟨5, "T1"⟩ (DownloadState.mk [] true) (emptyResult 1 0)).st.is_downloaded
      (fun q => q = "/old/a.sto") "gofast" 5 "T1" = true) := by
  have h := C9_duplicates_only_success (fun _ => true) "gofast" 3
    (fun _ => .success ⟨[], [⟨"/new/a.sto", "/old/a.sto", "h1", 10⟩], 0⟩)
    ⟨5, "T1"⟩ (DownloadState.mk [] true) (emptyResult 1 0)
    ⟨[], [⟨"/new/a.sto", "/old/a.sto", "h1", 10⟩], 0⟩
    rfl rfl (by decide) rfl
  exact ⟨h.1, h.2.2 (fun q => q = "/old/a.sto") (by decide)⟩

/-- Invariant-carrying specification of the `download_one` retry loop:
attempt count bounded by `maxRetries + 1`, sleeps exactly the backoff
sequence `2^0, 2^1, ...` (one per retry performed), cancellation only as
the final examined attempt, and permanent failure only with the whole
budget consumed. -/
theorem downloadOneLoop_spec (fs : String → Bool) (provider : String)
    (maxRetries : Nat) (attempts : Nat → AttemptOutcome) (setup : SetupRecord) :
    ∀ (fuel retryCount : Nat), fuel + retryCount = maxRetries + 1 →
    ∀ (st : DownloadState) (res : DownloadResult) (lastError : String)
      (sleepsRev : List Nat),
      sleepsRev.reverse =
        (List.range (min retryCount maxRetries)).map (fun k => 2 ^ k) →
      (∀ k, k < retryCount → attempts k ≠ .cancelled) →
      (downloadOneLoop fs provider maxRetries attempts setup fuel retryCount
          st res lastError sleepsRev retryCount).attemptsMade ≤ maxRetries + 1 ∧
      (downloadOneLoop fs provider maxRetries attempts setup fuel retryCount
          st res lastError sleepsRev retryCount).sleeps =
        (List.range ((downloadOneLoop fs provider maxRetries attempts setup fuel
          retryCount st res lastError sleepsRev retryCount).attemptsMade - 1)).map
            (fun k => 2 ^ k) ∧
      ((downloadOneLoop fs provider maxRetries attempts setup fuel retryCount
          st res lastError sleepsRev retryCount).status = .cancelled →
        0 < (downloadOneLoop fs provider maxRetries attempts setup fuel retryCount
          st res lastError sleepsRev retryCount).attemptsMade ∧
        attempts ((downloadOneLoop fs provider maxRetries attempts setup fuel
          retryCount st res lastError sleepsRev retryCount).attemptsMade - 1) =
          .cancelled) ∧
      ((downloadOneLoop fs provider maxRetries attempts setup fuel retryCount
          st res lastError sleepsRev retryCount).status ≠ .cancelled →
        ∀ k, k < (downloadOneLoop fs provider maxRetries attempts setup fuel
          retryCount st res lastError sleepsRev retryCount).attemptsMade →
          attempts k ≠ .cancelled) ∧
      ((downloadOneLoop fs provider maxRetries attempts setup fuel retryCount
          st res lastError sleepsRev retryCount).status = .failure →
        (downloadOneLoop fs provider maxRetries attempts setup fuel retryCount
          st res lastError sleepsRev retryCount).attemptsMade = maxRetries + 1) := by
  intro fuel
  induction fuel with
  | zero =>
    intro retryCount hfuel st res lastError sleepsRev hsleeps hcanc
    have hrc : retryCount = maxRetries + 1 := by omega
    have hmin : min retryCount maxRetries = retryCount - 1 := by omega
    simp only [downloadOneLoop]
    refine ⟨by omega, ?_, ?_, ?_, ?_⟩
    · rw [hsleeps, hmin]
    · intro h; exact absurd h (by simp)
    · intro _ k hk; exact hcanc k hk
    · intro _; omega
  | succ fuel ih =>
    intro retryCount hfuel st res lastError sleepsRev hsleeps hcanc
    have hrcle : retryCount ≤ maxRetries := by omega
    have hmin : min retryCount maxRetries = retryCount := by omega
    have hsleeps' : sleepsRev.reverse =
        (List.range retryCount).map (fun k => 2 ^ k) := by rw [hsleeps, hmin]
    have hstep : ∀ (st2 : DownloadState) (res2 : DownloadResult) (msg : String),
        (∀ k, k < retryCount + 1 → attempts k ≠ .cancelled) →
        (downloadOneLoop fs provider maxRetries attempts setup fuel (retryCount + 1)
            st2 res2 msg
            (if fuel > 0 then 2 ^ retryCount :: sleepsRev else sleepsRev)
            (retryCount + 1)).attemptsMade ≤ maxRetries + 1 ∧
        (downloadOneLoop fs provider maxRetries attempts setup fuel (retryCount + 1)
            st2 res2 msg
            (if fuel > 0 then 2 ^ retryCount :: sleepsRev else sleepsRev)
            (retryCount + 1)).sleeps =
          (List.range ((downloadOneLoop fs provider maxRetries attempts setup fuel
            (retryCount + 1) st2 res2 msg
            (if fuel > 0 then 2 ^ retryCount :: sleepsRev else sleepsRev)
            (retryCount + 1)).attemptsMade - 1)).map (fun k => 2 ^ k) ∧
        ((downloadOneLoop fs provider maxRetries attempts setup fuel (retryCount + 1)
            st2 res2 msg
            (if fuel > 0 then 2 ^ retryCount :: sleepsRev else sleepsRev)
            (retryCount + 1)).status = .cancelled →
          0 < (downloadOneLoop fs provider maxRetries attempts setup fuel
            (retryCount + 1) st2 res2 msg
            (if fuel > 0 then 2 ^ retryCount :: sleepsRev else sleepsRev)
            (retryCount + 1)).attemptsMade ∧
          attempts ((downloadOneLoop fs provider maxRetries attempts setup fuel
            (retryCount + 1) st2 res2 msg
            (if fuel > 0 then 2 ^ retryCount :: sleepsRev else sleepsRev)
            (retryCount + 1)).attemptsMade - 1) = .cancelled) ∧
        ((downloadOneLoop fs provider maxRetries attempts setup fuel (retryCount + 1)
            st2 res2 msg
            (if fuel > 0 then 2 ^ retryCount :: sleepsRev else sleepsRev)
            (retryCount + 1)).status ≠ .cancelled →
          ∀ k, k < (downloadOneLoop fs provider maxRetries attempts setup fuel
            (retryCount + 1) st2 res2 msg
            (if fuel > 0 then 2 ^ retryCount :: sleepsRev else sleepsRev)
            (retryCount + 1)).attemptsMade → attempts k ≠ .cancelled) ∧
        ((downloadOneLoop fs provider maxRetries attempts setup fuel (retryCount + 1)
            st2 res2 msg
            (if fuel > 0 then 2 ^ retryCount :: sleepsRev else sleepsRev)
            (retryCount + 1)).status = .failure →
          (downloadOneLoop fs provider maxRetries attempts setup fuel (retryCount + 1)
            st2 res2 msg
            (if fuel > 0 then 2 ^ retryCount :: sleepsRev else sleepsRev)
            (retryCount + 1)).attemptsMade = maxRetries + 1) := by
      intro st2 res2 msg hcanc'
      apply ih (retryCount + 1) (by omega) st2 res2 msg _ _ hcanc'
      by_cases hf : fuel > 0
      · have hrclt : retryCount < maxRetries := by omega
        have hmin1 : min (retryCount + 1) maxRetries = retryCount + 1 := by omega
        rw [if_pos hf, hmin1]
        simp only [List.reverse_cons, hsleeps']
        rw [List.range_succ, List.map_append]
        simp
      · have hrceq : retryCount = maxRetries := by omega
        have hmin1 : min (retryCount + 1) maxRetries = retryCount := by omega
        rw [if_neg hf, hmin1, hsleeps']
    rcases hA : attempts retryCount with er | msg | _
    · rcases hB : downloadAttemptBody fs provider setup st res er with ⟨st', res'⟩ | ⟨msg, res'⟩
      · simp only [downloadOneLoop, hA, hB]
        refine ⟨by omega, ?_, ?_, ?_, ?_⟩
        · simp only [hsleeps']
          congr 1
        · intro h; exact absurd h (by simp)
        · intro _ k hk
          rcases Nat.lt_succ_iff_lt_or_eq.mp hk with hk' | hk'
          · exact hcanc k hk'
          · subst hk'; rw [hA]; simp
        · intro h; exact absurd h (by simp)
      · have hnext := hstep st res' msg (by
          intro k hk
          rcases Nat.lt_succ_iff_lt_or_eq.mp hk with hk' | hk'
          · exact hcanc k hk'
          · subst hk'; rw [hA]; simp)
        simp only [downloadOneLoop, hA, hB]
        exact hnext
    · have hnext := hstep st res msg (by
        intro k hk
        rcases Nat.lt_succ_iff_lt_or_eq.mp hk with hk' | hk'
        · exact hcanc k hk'
        · subst hk'; rw [hA]; simp)
      simp only [downloadOneLoop, hA]
      exact hnext
    · simp only [downloadOneLoop, hA]
      refine ⟨by omega, ?_, ?_, ?_, ?_⟩
      · simp only [hsleeps']
        congr 1
      · intro _
        refine ⟨by omega, ?_⟩
        simpa using hA
      · intro h; exact absurd rfl h
      · intro h; exact absurd h (by simp)

/-- Claim C3: `download_one` starts at most `maxRetries + 1` provider
attempts (at most `maxRetries` additional ones after the first failure),
each retry preceded by a backoff sleep of `2^(attempt-1)` seconds; a
cancellation observed during an attempt propagates immediately (it is
the last examined attempt, and the result is cancelled exactly then),
while every other exception is retried until the budget is exhausted
(a failure result means all `maxRetries + 1` attempts ran). -/
theorem C3_retry_policy (fs : String → Bool) (provider : String)
    (maxRetries : Nat) (attempts : Nat → AttemptOutcome) (setup : SetupRecord)
    (st : DownloadState) (res : DownloadResult) :
    (download_one fs provider maxRetries attempts setup st res).attemptsMade ≤
      maxRetries + 1 ∧
    (download_one fs provider maxRetries attempts setup st res).sleeps =
      (List.range ((download_one fs provider maxRetries attempts setup st
        res).attemptsMade - 1)).map (fun k => 2 ^ k) ∧
    ((download_one fs provider maxRetries attempts setup st res).status =
        .cancelled →
      0 < (download_one fs provider maxRetries attempts setup st res).attemptsMade ∧
      attempts ((download_one fs provider maxRetries attempts setup st
        res).attemptsMade - 1) = .cancelled) ∧
    ((download_one fs provider maxRetries attempts setup st res).status ≠
        .cancelled →
      ∀ k, k < (download_one fs provider maxRetries attempts setup st
        res).attemptsMade → attempts k ≠ .cancelled) ∧
    ((download_one fs provider maxRetries attempts setup st res).status =
        .failure →
      (download_one fs provider maxRetries attempts setup st res).attemptsMade =
        maxRetries + 1) := by
  have h := downloadOneLoop_spec fs provider maxRetries attempts setup
    (maxRetries + 1) 0 (by omega) st res "" [] (by simp) (by omega)
  exact h

/-- Witness for C3: a first attempt that fails, then a cancelled retry;
the theorem gives that the cancelled attempt is the last one examined. -/
theorem C3_retry_policy_witness :
    ((download_one (fun _ => true) "gofast" 1
        (fun k => if k = 0 then .failure "boom" else .cancelled)
        ⟨1, "T1"⟩ (DownloadState.mk [] true) (emptyResult 1 0)).status =
      DLStatus.cancelled) ∧
    ((download_one (fun _ => true) "gofast" 1
        (fun k => if k = 0 then .failure "boom" else .cancelled)
        ⟨1, "T1"⟩ (DownloadState.mk [] true) (emptyResult 1 0)).sleeps = [1]) ∧
    ((fun k => if k = 0 then AttemptOutcome.failure "boom" else .cancelled)
      ((download_one (fun _ => true) "gofast" 1
        (fun k => if k = 0 then .failure "boom" else .cancelled)
        ⟨1, "T1"⟩ (DownloadState.mk [] true) (emptyResult 1 0)).attemptsMade - 1) =
      .cancelled) := by
  have h := C3_retry_policy (fun _ => true) "gofast" 1
    (fun k => if k = 0 then .failure "boom" else .cancelled)
    ⟨1, "T1"⟩ (DownloadState.mk [] true) (emptyResult 1 0)
  exact ⟨by decide, by decide, (h.2.2.1 (by decide)).2⟩

/-- Claim C4: an attempt whose extraction yields zero files and zero
recognized duplicates raises (`FileNotFoundError`, message
`"No .sto files extracted from ZIP"`) instead of silently succeeding,
and an attempt claiming an extracted file that is not on disk also
raises; in both cases, run with no retry budget, `download_one` fails
and the ledger is exactly as before. -/
theorem C4_empty_payload_is_failure (fs : String → Bool) (provider : String)
    (setup : SetupRecord) (st : DownloadState) (res : DownloadResult)
    (er : ExtractResult) (attempts : Nat → AttemptOutcome) :
    (er.extracted_files = [] → er.duplicates = [] →
      downloadAttemptBody fs provider setup st res er =
        .err "No .sto files extracted from ZIP" res) ∧
    (∀ p, p ∈ er.extracted_files → fs p = false →
      ∃ q, q ∈ er.extracted_files ∧ fs q = false ∧
        downloadAttemptBody fs provider setup st res er =
          .err ("Extracted file does not exist: " ++ q) res) ∧
    (attempts 0 = .success er → er.extracted_files = [] → er.duplicates = [] →
      (download_one fs provider 0 attempts setup st res).status = .failure ∧
      (download_one fs provider 0 attempts setup st res).st = st ∧
      (download_one fs provider 0 attempts setup st res).lastError =
        "No .sto files extracted from ZIP") ∧
    (attempts 0 = .success er → (∃ p, p ∈ er.extracted_files ∧ fs p = false) →
      (download_one fs provider 0 attempts setup st res).status = .failure ∧
      (download_one fs provider 0 attempts setup st res).st = st) := by
  have hbody_empty : er.extracted_files = [] → er.duplicates = [] →
      downloadAttemptBody fs provider setup st res er =
        .err "No .sto files extracted from ZIP" res := by
    intro h1 h2
    unfold downloadAttemptBody
    rw [if_pos ⟨h1, h2⟩]
  have hbody_missing : ∀ p, p ∈ er.extracted_files → fs p = false →
      ∃ q, q ∈ er.extracted_files ∧ fs q = false ∧
        downloadAttemptBody fs provider setup st res er =
          .err ("Extracted file does not exist: " ++ q) res := by
    intro p hp hfp
    have hsome : (er.extracted_files.find? (fun x => !fs x)).isSome :=
      List.find?_isSome.mpr ⟨p, hp, by simp [hfp]⟩
    obtain ⟨q, hq⟩ := Option.isSome_iff_exists.mp hsome
    refine ⟨q, List.mem_of_find?_eq_some hq, ?_, ?_⟩
    · have := List.find?_some hq
      simpa using this
    · unfold downloadAttemptBody
      rw [if_neg (by rintro ⟨h1, _⟩; rw [h1] at hp; exact absurd hp (by simp))]
      rw [hq]
  refine ⟨hbody_empty, hbody_missing, ?_, ?_⟩
  · intro hatt h1 h2
    have hb := hbody_empty h1 h2
    refine ⟨?_, ?_, ?_⟩ <;>
      simp only [download_one, downloadOneLoop, hatt, hb] <;> rfl
  · rintro hatt ⟨p, hp, hfp⟩
    obtain ⟨q, _, _, hb⟩ := hbody_missing p hp hfp
    refine ⟨?_, ?_⟩ <;>
      simp only [download_one, downloadOneLoop, hatt, hb] <;> rfl

/-- Witness for C4 on a concrete empty extraction result. -/
theorem C4_empty_payload_is_failure_witness :
    (downloadAttemptBody (fun _ => true) "gofast" ⟨1, "T1"⟩
        (DownloadState.mk [] true) (emptyResult 1 0) ⟨[], [], 0⟩ =
      .err "No .sto files extracted from ZIP" (emptyResult 1 0)) ∧
    ((download_one (fun _ => true) "gofast" 0
        (fun _ => .success ⟨[], [], 0⟩) ⟨1, "T1"⟩
        (DownloadState.mk [] true) (emptyResult 1 0)).status = DLStatus.failure) ∧
    ((download_one (fun _ => false) "gofast" 0
        (fun _ => .success ⟨["/x/a.sto"], [], 0⟩) ⟨1, "T1"⟩
        (DownloadState.mk [] true) (emptyResult 1 0)).st =
      DownloadState.mk [] true) := by
  have h1 := C4_empty_payload_is_failure (fun _ => true) "gofast" ⟨1, "T1"⟩
    (DownloadState.mk [] true) (emptyResult 1 0) ⟨[], [], 0⟩
    (fun _ => .success ⟨[], [], 0⟩)
  have h2 := C4_empty_payload_is_failure (fun _ => false) "gofast" ⟨1, "T1"⟩
    (DownloadState.mk [] true) (emptyResult 1 0) ⟨["/x/a.sto"], [], 0⟩
    (fun _ => .success ⟨["/x/a.sto"], [], 0⟩)
  exact ⟨h1.1 rfl rfl, (h1.2.2.1 rfl rfl rfl).1,
    (h2.2.2.2 rfl ⟨"/x/a.sto", by decide, rfl⟩).2⟩

theorem updateStats_errors (res : DownloadResult) (er : ExtractResult) :
    (updateStats res er).errors = res.errors := by
  unfold updateStats
  by_cases h1 : er.duplicates ≠ [] <;> by_cases h2 : er.files_renamed > 0 <;>
    simp [h1, h2]

theorem downloadAttemptBody_res_errors (fs : String → Bool) (provider : String)
    (setup : SetupRecord) (st : DownloadState) (res : DownloadResult)
    (er : ExtractResult) (step : AttemptStep)
    (h : downloadAttemptBody fs provider setup st res er = step) :
    (match step with
     | .ok _ r => r.errors
     | .err _ r => r.errors) = res.errors := by
  unfold downloadAttemptBody at h
  by_cases h1 : er.extracted_files = [] ∧ er.duplicates = []
  · rw [if_pos h1] at h
    subst h; rfl
  · rw [if_neg h1] at h
    rcases hf : er.extracted_files.find? (fun p => !fs p) with _ | q
    · simp only [hf] at h
      rcases hm : st.mark_downloaded provider setup.id setup.updated_date
          (if er.extracted_files = [] ∧ er.duplicates ≠ [] then
            List.map (fun d => d.existing_path) er.duplicates
          else er.extracted_files) with _ | st2 <;>
        simp only [hm] at h <;> subst h <;>
        exact updateStats_errors res er
    · simp only [hf] at h
      subst h; rfl

theorem downloadOneLoop_errors (fs : String → Bool) (provider : String)
    (maxRetries : Nat) (attempts : Nat → AttemptOutcome) (setup : SetupRecord) :
    ∀ (fuel retryCount : Nat) (st : DownloadState) (res : DownloadResult)
      (lastError : String) (sleepsRev : List Nat) (made : Nat),
      (downloadOneLoop fs provider maxRetries attempts setup fuel retryCount
        st res lastError sleepsRev made).res.errors = res.errors := by
  intro fuel
  induction fuel with
  | zero => intro _ _ _ _ _ _; simp [downloadOneLoop]
  | succ fuel ih =>
    intro retryCount st res lastError sleepsRev made
    rcases hA : attempts retryCount with er | msg | _
    · rcases hB : downloadAttemptBody fs provider setup st res er with ⟨st', res'⟩ | ⟨msg, res'⟩
      · have herr := downloadAttemptBody_res_errors fs provider setup st res er _ hB
        simp only [downloadOneLoop, hA, hB]
        exact herr
      · have herr := downloadAttemptBody_res_errors fs provider setup st res er _ hB
        simp only [downloadOneLoop, hA, hB]
        rw [ih]
        exact herr
    · simp only [downloadOneLoop, hA]
      rw [ih]
    · simp only [downloadOneLoop, hA]

/-- Claim C1 (divergence witness): no code path ever appends to the
result's `errors` list — `downloadItem` leaves `errors` untouched on
every input — and on the concrete scenario of an item whose only attempt
raises with no retry budget, the run reports `failed = 1` with an empty
`errors` list (the collected `last_error` is only logged), while the
ledger is left exactly as before, contradicting the specified
`(item.id, last_error_message)` append. -/
theorem C1_errors_never_appended :
    (∀ (fs : String → Bool) (provider : String) (maxRetries : Nat)
       (attempts : Nat → AttemptOutcome) (setup : SetupRecord)
       (st : DownloadState) (res : DownloadResult) (flag : Bool),
       (downloadItem fs provider maxRetries attempts setup st res flag).res.errors =
         res.errors) ∧
    ((downloadItem (fun _ => true) "gofast" 0 (fun _ => .failure "Network error")
        ⟨2, "2024-01-01T00:00:00"⟩ (DownloadState.mk [] true) (emptyResult 2 0)
        false).res.failed = 1 ∧
     (downloadItem (fun _ => true) "gofast" 0 (fun _ => .failure "Network error")
        ⟨2, "2024-01-01T00:00:00"⟩ (DownloadState.mk [] true) (emptyResult 2 0)
        false).res.errors = [] ∧
     (downloadItem (fun _ => true) "gofast" 0 (fun _ => .failure "Network error")
        ⟨2, "2024-01-01T00:00:00"⟩ (DownloadState.mk [] true) (emptyResult 2 0)
        false).st = DownloadState.mk [] true ∧
     (downloadItem (fun _ => true) "gofast" 0 (fun _ => .failure "Network error")
        ⟨2, "2024-01-01T00:00:00"⟩ (DownloadState.mk [] true) (emptyResult 2 0)
        false).lastError = "Network error") := by
  constructor
  · intro fs provider maxRetries attempts setup st res flag
    unfold downloadItem
    by_cases hflag : flag
    · rw [if_pos hflag]
    · rw [if_neg hflag]
      have herr := downloadOneLoop_errors fs provider maxRetries attempts setup
        (maxRetries + 1) 0 st res "" [] 0
      rcases hs : (download_one fs provider maxRetries attempts setup st res).status
        with _ | _ | _ | _ <;>
        simp only [hs] <;> exact herr
  · exact ⟨by decide, by decide, by decide, by decide⟩

/-- `countP p + countP (not p) = length`. -/
theorem countP_add_countP_not {α : Type} (p : α → Bool) (l : List α) :
    l.countP p + l.countP (fun a => !p a) = l.length := by
  induction l with
  | nil => simp
  | cons x xs ih =>
    by_cases hx : p x
    · simp [List.countP_cons, hx, ← ih]; omega
    · simp [List.countP_cons, hx, ← ih]; omega

/-- Claim C5: a dry run returns `total_available` equal to the listed
item count, `skipped` equal to the number filtered out as already
downloaded, zero `downloaded` and `failed`, performs no download, and
returns the ledger exactly as it was. -/
theorem C5_dry_run (fs : String → Bool) (st : DownloadState) (provider : String)
    (maxRetries : Nat) (attempts : Nat → Nat → AttemptOutcome)
    (allSetups : List SetupRecord) (limit : Option Nat)
    (hl : st.loaded = true) :
    download_all fs st provider maxRetries attempts allSetups true limit =
      .ok (emptyResult allSetups.length
        (allSetups.countP (fun s => st.is_downloaded fs provider s.id s.updated_date)),
        st) := by
  unfold download_all
  rw [if_neg (by simp [hl])]
  by_cases hall : allSetups = []
  · subst hall; simp
  · rw [if_neg hall]
    have hskip : allSetups.length - (filter_new_setups fs st provider allSetups).length
        = allSetups.countP (fun s => st.is_downloaded fs provider s.id s.updated_date) := by
      unfold filter_new_setups
      rw [← List.countP_eq_length_filter]
      have hadd := countP_add_countP_not
        (fun s => st.is_downloaded fs provider s.id s.updated_date) allSetups
      have hle := List.countP_le_length
        (p := fun s => !st.is_downloaded fs provider s.id s.updated_date)
        (l := allSetups)
      omega
    simp only [hskip]
    split <;> simp

/-- Witness for C5 at a concrete ledger with one of two items recorded. -/
theorem C5_dry_run_witness :
    download_all (fun q => q = "/x/a.sto")
      (DownloadState.mk [("gofast", [("1", ⟨"T1", ["/x/a.sto"], none⟩)])] true)
      "gofast" 3 (fun _ _ => .failure "n/a") [⟨1, "T1"⟩, ⟨2, "T1"⟩] true none =
      .ok (emptyResult 2 1,
        DownloadState.mk [("gofast", [("1", ⟨"T1", ["/x/a.sto"], none⟩)])] true) := by
  have h := C5_dry_run (fun q => q = "/x/a.sto")
    (DownloadState.mk [("gofast", [("1", ⟨"T1", ["/x/a.sto"], none⟩)])] true)
    "gofast" 3 (fun _ _ => .failure "n/a") [⟨1, "T1"⟩, ⟨2, "T1"⟩] none rfl
  rw [h]
  simp only [Except.ok.injEq, Prod.mk.injEq]
  exact ⟨by decide, trivial⟩

/-! ## Lemmas and claims for the hash cache and duplicate index -/

theorem cacheCoherent_nil (hashFn : String → String)
    (fs : String → Option FileInfo) : cacheCoherent hashFn fs [] := by
  intro p e info hlk
  simp [alistLookup] at hlk

theorem cacheCoherent_insert (hashFn : String → String)
    (fs : String → Option FileInfo) (cache : HashCache) (path : String)
    (info : FileInfo) (hc : cacheCoherent hashFn fs cache)
    (hp : fs path = some info) :
    cacheCoherent hashFn fs
      (alistInsert cache path ⟨hashFn info.content, info.mtime_ns, info.size⟩) := by
  intro p e' i' hlk hfs hmt hsz
  rw [alistLookup_insert] at hlk
  by_cases hpp : p = path
  · subst hpp
    rw [if_pos rfl] at hlk
    obtain rfl : (⟨hashFn info.content, info.mtime_ns, info.size⟩ : CacheEntry) = e' :=
      Option.some_injective _ hlk
    rw [hp] at hfs
    obtain rfl : info = i' := Option.some_injective _ hfs
    rfl
  · rw [if_neg hpp] at hlk
    exact hc p e' i' hlk hfs hmt hsz

theorem get_hash_coherent (hashFn : String → String)
    (fs : String → Option FileInfo) (cache : HashCache) (path : String)
    (info : FileInfo) (hc : cacheCoherent hashFn fs cache)
    (hp : fs path = some info) :
    ∃ c', get_hash hashFn fs cache path = some (hashFn info.content, c') ∧
      cacheCoherent hashFn fs c' := by
  unfold get_hash
  rw [hp]
  rcases hl : alistLookup cache path with _ | e
  · simp only [hl]
    exact ⟨_, rfl, cacheCoherent_insert hashFn fs cache path info hc hp⟩
  · simp only [hl]
    by_cases hmatch : e.mtime_ns = info.mtime_ns ∧ e.size = info.size
    · rw [if_pos hmatch]
      have he := hc path e info hl hp hmatch.1 hmatch.2
      exact ⟨cache, by rw [he], hc⟩
    · rw [if_neg hmatch]
      exact ⟨_, rfl, cacheCoherent_insert hashFn fs cache path info hc hp⟩

theorem alistLookup_append_single {α : Type} (g : List (String × α))
    (k h : String) (v : α) :
    alistLookup (g ++ [(k, v)]) h =
      (match alistLookup g h with
       | some x => some x
       | none => if k = h then some v else none) := by
  induction g with
  | nil => simp [alistLookup]
  | cons hd tl ih =>
    obtain ⟨hk, hv⟩ := hd
    by_cases h1 : hk = h <;> simp [alistLookup, h1, ih]

theorem groupAdd_lookup (g : List (String × List String)) (hq q h : String) :
    alistLookup (groupAdd g hq q) h =
      if h = hq then some ((alistLookup g hq).getD [] ++ [q])
      else alistLookup g h := by
  unfold groupAdd
  rcases hg : alistLookup g hq with _ | l
  · rw [alistLookup_append_single]
    by_cases h1 : h = hq
    · subst h1
      rw [hg]
      simp [hg]
    · rcases hgh : alistLookup g h with _ | x <;>
        simp [hgh, h1, Ne.symm h1]
  · rw [alistLookup_insert]
    by_cases h1 : h = hq
    · subst h1; simp [hg]
    · simp [h1]

/-- Invariant of `preload_directory`: the groups map every digest to the
listing's files with that digest, in listing order, and the cache stays
coherent. -/
theorem preload_directory_spec (hashFn : String → String)
    (fs : String → Option FileInfo) :
    ∀ (files pre : List String) (groups : List (String × List String))
      (cache : HashCache),
      cacheCoherent hashFn fs cache →
      (∀ h, alistLookup groups h =
        (if pre.filter (fun q => hashOfFile hashFn fs q = some h) = [] then none
         else some (pre.filter (fun q => hashOfFile hashFn fs q = some h)))) →
      cacheCoherent hashFn fs (preload_directory hashFn fs files groups cache).2 ∧
      ∀ h, alistLookup (preload_directory hashFn fs files groups cache).1 h =
        (if (pre ++ files).filter (fun q => hashOfFile hashFn fs q = some h) = []
         then none
         else some ((pre ++ files).filter (fun q => hashOfFile hashFn fs q = some h))) := by
  intro files
  induction files with
  | nil =>
    intro pre groups cache hc hinv
    refine ⟨hc, fun h => ?_⟩
    rw [List.append_nil]
    exact hinv h
  | cons p rest ih =>
    intro pre groups cache hc hinv
    have hassoc : pre ++ p :: rest = (pre ++ [p]) ++ rest := by simp
    rcases hfp : fs p with _ | info
    · have hgh : get_hash hashFn fs cache p = none := by
        unfold get_hash; rw [hfp]
      have hpred : hashOfFile hashFn fs p = none := by
        unfold hashOfFile; rw [hfp]; rfl
      have hinv' : ∀ h, alistLookup groups h =
          (if (pre ++ [p]).filter (fun q => hashOfFile hashFn fs q = some h) = []
           then none
           else some ((pre ++ [p]).filter (fun q => hashOfFile hashFn fs q = some h))) := by
        intro h
        rw [List.filter_append]
        have hsing : List.filter (fun q => decide (hashOfFile hashFn fs q = some h)) [p]
            = [] := by
          simp [List.filter_cons, hpred]
        rw [hsing, List.append_nil]
        exact hinv h
      simp only [preload_directory, hgh]
      rw [hassoc]
      exact ih (pre ++ [p]) groups cache hc hinv'
    · obtain ⟨c', hgh, hc'⟩ := get_hash_coherent hashFn fs cache p info hc hfp
      have hpred : hashOfFile hashFn fs p = some (hashFn info.content) := by
        unfold hashOfFile; rw [hfp]; rfl
      have hinv' : ∀ h,
          alistLookup (groupAdd groups (hashFn info.content) p) h =
          (if (pre ++ [p]).filter (fun q => hashOfFile hashFn fs q = some h) = []
           then none
           else some ((pre ++ [p]).filter (fun q => hashOfFile hashFn fs q = some h))) := by
        intro h
        rw [groupAdd_lookup, List.filter_append]
        by_cases hh : h = hashFn info.content
        · rw [if_pos hh]
          have hsing : List.filter (fun q => decide (hashOfFile hashFn fs q = some h)) [p]
              = [p] := by
            simp [List.filter_cons, hpred, hh]
          rw [hsing, ← hh, hinv h]
          by_cases hfe : pre.filter (fun q => hashOfFile hashFn fs q = some h) = []
          · rw [if_pos hfe, hfe]
            simp
          · rw [if_neg hfe, Option.getD_some]
            rw [if_neg (by simp)]
        · rw [if_neg hh]
          have hsing : List.filter (fun q => decide (hashOfFile hashFn fs q = some h)) [p]
              = [] := by
            have : (hashOfFile hashFn fs p = some h) = False := by
              simp only [hpred, Option.some.injEq, eq_iff_iff, iff_false]
              exact fun hc2 => hh hc2.symm
            simp [List.filter_cons, this]
          rw [hsing, List.append_nil]
          exact hinv h
      simp only [preload_directory, hgh]
      rw [hassoc]
      exact ih (pre ++ [p]) (groupAdd groups (hashFn info.content) p) c' hc' hinv'

theorem alistLookup_mapval {α β : Type} (f : α → β) (l : List (String × α))
    (k : String) :
    alistLookup (l.map (fun kv => (kv.1, f kv.2))) k = (alistLookup l k).map f := by
  induction l with
  | nil => rfl
  | cons hd tl ih =>
    obtain ⟨hk, hv⟩ := hd
    by_cases h1 : hk = k <;> simp [alistLookup, h1, ih]

theorem bool_eq_true_of_ne_false {b : Bool} (h : ¬ b = false) : b = true := by
  cases b
  · exact absurd rfl h
  · rfl

theorem string_eq_of_data_eq {x a : String} (h : x.data = a.data) : x = a :=
  congrArg String.mk h

theorem foldlMin_le (xs : List String) :
    ∀ (a x : String), (x = a ∨ x ∈ xs) →
      strLtB x (xs.foldl (fun u v => if strLtB v u then v else u) a) = false := by
  induction xs with
  | nil =>
    intro a x hx
    obtain rfl : x = a := by simpa using hx
    exact listLtB_irrefl _
  | cons b xs ih =>
    intro a x hx
    simp only [List.foldl_cons]
    by_cases hba : strLtB b a = true
    · rw [if_pos hba]
      rcases hx with rfl | hx2
      · by_contra hcon
        have hxr := bool_eq_true_of_ne_false hcon
        have hbr := ih b b (Or.inl rfl)
        have hbf : strLtB b (xs.foldl (fun u v => if strLtB v u then v else u) b) = true :=
          listLtB_trans hba hxr
        rw [hbf] at hbr
        exact absurd hbr (by simp)
      · rcases List.mem_cons.mp hx2 with h1 | hx3
        · exact ih b x (Or.inl h1)
        · exact ih b x (Or.inr hx3)
    · rw [if_neg hba]
      rcases hx with rfl | hx2
      · exact ih _ _ (Or.inl rfl)
      · rcases List.mem_cons.mp hx2 with h1 | hx3
        · -- x is the head b, acc stays a
          by_contra hcon
          have hxr := bool_eq_true_of_ne_false hcon
          have har := ih a a (Or.inl rfl)
          by_cases hax : strLtB a x = true
          · have haf : strLtB a (xs.foldl (fun u v => if strLtB v u then v else u) a)
                = true := listLtB_trans hax hxr
            rw [haf] at har
            exact absurd har (by simp)
          · have hxa : strLtB x a = false := by
              rw [← h1] at hba
              cases hsb : strLtB x a
              · rfl
              · exact absurd hsb hba
            have hax' : strLtB a x = false := by
              cases hsb : strLtB a x
              · rfl
              · exact absurd hsb hax
            have hde : x.data = a.data := listLtB_total _ _ hxa hax'
            rw [string_eq_of_data_eq hde] at hxr
            rw [hxr] at har
            exact absurd har (by simp)
        · exact ih a x (Or.inr hx3)

theorem foldlMin_mem (xs : List String) :
    ∀ (a : String), xs.foldl (fun u v => if strLtB v u then v else u) a = a ∨
      xs.foldl (fun u v => if strLtB v u then v else u) a ∈ xs := by
  induction xs with
  | nil => intro a; exact Or.inl rfl
  | cons b xs ih =>
    intro a
    simp only [List.foldl_cons]
    by_cases hba : strLtB b a = true
    · rw [if_pos hba]
      rcases ih b with h | h
      · exact Or.inr (by rw [h]; exact List.mem_cons_self b xs)
      · exact Or.inr (List.mem_cons.mpr (Or.inr h))
    · rw [if_neg hba]
      rcases ih a with h | h
      · exact Or.inl h
      · exact Or.inr (List.mem_cons.mpr (Or.inr h))

theorem listMinStr_mem (l : List String) (hne : l ≠ []) : listMinStr l ∈ l := by
  cases l with
  | nil => exact absurd rfl hne
  | cons x xs =>
    show xs.foldl (fun a b => if strLtB b a then b else a) x ∈ x :: xs
    rcases foldlMin_mem xs x with h | h
    · rw [h]; exact List.mem_cons_self x xs
    · exact List.mem_cons.mpr (Or.inr h)

theorem listMinStr_le (l : List String) (x : String) (hx : x ∈ l) :
    strLtB x (listMinStr l) = false := by
  cases l with
  | nil => exact absurd hx (by simp)
  | cons y ys =>
    show strLtB x (ys.foldl (fun a b => if strLtB b a then b else a) y) = false
    rcases List.mem_cons.mp hx with h1 | hx'
    · exact foldlMin_le ys y x (Or.inl h1)
    · exact foldlMin_le ys y x (Or.inr hx')

/-- Claim C7: `get_hash` returns the cached digest exactly when an entry
for the (resolved) path exists with both `mtime_ns` and `size_bytes`
matching the live file (cache unchanged); otherwise it computes the
digest of the content, stores the new `(hash, mtime_ns, size)` entry,
and returns it; it raises `FileNotFoundError` when the path does not
exist. -/
theorem C7_get_hash_cache (hashFn : String → String)
    (fs : String → Option FileInfo) (cache : HashCache) (path : String) :
    (fs path = none → get_hash hashFn fs cache path = none) ∧
    (∀ info e, fs path = some info → alistLookup cache path = some e →
      e.mtime_ns = info.mtime_ns → e.size = info.size →
      get_hash hashFn fs cache path = some (e.hash, cache)) ∧
    (∀ info, fs path = some info →
      (alistLookup cache path = none ∨
        ∃ e, alistLookup cache path = some e ∧
          (e.mtime_ns ≠ info.mtime_ns ∨ e.size ≠ info.size)) →
      get_hash hashFn fs cache path =
        some (hashFn info.content,
          alistInsert cache path ⟨hashFn info.content, info.mtime_ns, info.size⟩)) := by
  refine ⟨?_, ?_, ?_⟩
  · intro h
    unfold get_hash
    rw [h]
  · intro info e hfs hlk hmt hsz
    unfold get_hash
    rw [hfs]
    simp only [hlk]
    rw [if_pos ⟨hmt, hsz⟩]
  · intro info hfs hbad
    unfold get_hash
    rw [hfs]
    rcases hbad with hnone | ⟨e, hlk, hne⟩
    · simp only [hnone]
    · simp only [hlk]
      rw [if_neg (fun hc2 => by
        rcases hne with h1 | h1
        · exact h1 hc2.1
        · exact h1 hc2.2)]

/-- Witness for C7: missing file, a valid cache hit, and a stale entry. -/
theorem C7_get_hash_cache_witness :
    (get_hash (fun c => c ++ "#") dedupDemoFs [] "/nope" = none) ∧
    (get_hash (fun c => c ++ "#") dedupDemoFs [("/t/a.sto", ⟨"CACHED", 3, 1⟩)]
      "/t/a.sto" = some ("CACHED", [("/t/a.sto", ⟨"CACHED", 3, 1⟩)])) ∧
    (get_hash (fun c => c ++ "#") dedupDemoFs [("/t/a.sto", ⟨"STALE", 99, 1⟩)]
      "/t/a.sto" = some ("Y#", [("/t/a.sto", ⟨"Y#", 3, 1⟩)])) := by
  have h1 := C7_get_hash_cache (fun c => c ++ "#") dedupDemoFs [] "/nope"
  have h2 := C7_get_hash_cache (fun c => c ++ "#") dedupDemoFs
    [("/t/a.sto", ⟨"CACHED", 3, 1⟩)] "/t/a.sto"
  have h3 := C7_get_hash_cache (fun c => c ++ "#") dedupDemoFs
    [("/t/a.sto", ⟨"STALE", 99, 1⟩)] "/t/a.sto"
  refine ⟨h1.1 rfl, ?_, ?_⟩
  · have hh := h2.2.1 ⟨3, 1, "Y"⟩ ⟨"CACHED", 3, 1⟩ (by decide) (by decide) rfl rfl
    rw [hh]
  · have hh := h3.2.2 ⟨3, 1, "Y"⟩ (by decide)
      (Or.inr ⟨⟨"STALE", 99, 1⟩, by decide, Or.inl (by decide)⟩)
    rw [hh]
    decide

/-- Claim C6: after `build_index`, each indexed digest maps to the
code-point-lexicographically smallest path among all listed files with
that digest, and `find_duplicate` on a file whose content digest is
indexed returns that canonical path — `none` exactly when the queried
path is the canonical entry itself. -/
theorem C6_build_index_dedup (hashFn : String → String)
    (fs : String → Option FileInfo) (files : List String) (cache : HashCache)
    (hc : cacheCoherent hashFn fs cache) :
    (∀ h p, alistLookup (build_index hashFn fs files cache).1 h = some p →
      p ∈ files ∧ hashOfFile hashFn fs p = some h ∧
      ∀ q, q ∈ files → hashOfFile hashFn fs q = some h → strLtB q p = false) ∧
    (∀ path info e, fs path = some info →
      alistLookup (build_index hashFn fs files cache).1 (hashFn info.content) =
        some e →
      (find_duplicate hashFn fs (build_index hashFn fs files cache).1
        (build_index hashFn fs files cache).2 path).1 =
        (if path = e then none
         else some ⟨path, e, hashFn info.content, info.size⟩)) := by
  have hpre := preload_directory_spec hashFn fs files [] [] cache hc
    (by intro h; simp [alistLookup])
  obtain ⟨hc', hgroups⟩ := hpre
  have hidx1 : (build_index hashFn fs files cache).1 =
      (preload_directory hashFn fs files [] cache).1.map
        (fun g => (g.1, listMinStr g.2)) := rfl
  have hidx2 : (build_index hashFn fs files cache).2 =
      (preload_directory hashFn fs files [] cache).2 := rfl
  constructor
  · intro h p hlk
    rw [hidx1, alistLookup_mapval] at hlk
    rcases hg : alistLookup (preload_directory hashFn fs files [] cache).1 h
      with _ | l
    · rw [hg] at hlk
      exact absurd hlk (by simp)
    · rw [hg] at hlk
      have hmin : listMinStr l = p := by simpa using hlk
      have hgr := hgroups h
      rw [hg] at hgr
      by_cases hfe : files.filter (fun q => hashOfFile hashFn fs q = some h) = []
      · rw [if_pos (by simpa using hfe)] at hgr
        exact absurd hgr (by simp)
      · rw [if_neg (by simpa using hfe)] at hgr
        have hleq : l = files.filter (fun q => hashOfFile hashFn fs q = some h) := by
          simpa using hgr
        have hlne : l ≠ [] := by rw [hleq]; exact hfe
        have hpmem : p ∈ l := by rw [← hmin]; exact listMinStr_mem l hlne
        rw [hleq] at hpmem
        have hpmem' := List.mem_filter.mp hpmem
        refine ⟨hpmem'.1, of_decide_eq_true hpmem'.2, ?_⟩
        intro q hq hqh
        have hqmem : q ∈ l := by
          rw [hleq]
          exact List.mem_filter.mpr ⟨hq, decide_eq_true hqh⟩
        rw [← hmin]
        exact listMinStr_le l q hqmem
  · intro path info e hfs hlk
    unfold find_duplicate
    rw [hfs]
    obtain ⟨c2, hgh, _⟩ := get_hash_coherent hashFn fs
      (build_index hashFn fs files cache).2 path info (by rw [hidx2]; exact hc') hfs
    simp only [hgh, hlk]
    by_cases hpe : path = e <;> simp [hpe]

/-- Witness for C6: files `c`, `b` share content `X`; the canonical path
is the lexicographically smaller `b`, reported as the duplicate of `c`. -/
theorem C6_build_index_dedup_witness :
    (find_duplicate (fun c => c) dedupDemoFs
      (build_index (fun c => c) dedupDemoFs ["/t/c.sto", "/t/b.sto", "/t/a.sto"] []).1
      (build_index (fun c => c) dedupDemoFs ["/t/c.sto", "/t/b.sto", "/t/a.sto"] []).2
      "/t/c.sto").1 = some ⟨"/t/c.sto", "/t/b.sto", "X", 1⟩ := by
  have h := (C6_build_index_dedup (fun c => c) dedupDemoFs
    ["/t/c.sto", "/t/b.sto", "/t/a.sto"] [] (cacheCoherent_nil _ _)).2
    "/t/c.sto" ⟨5, 1, "X"⟩ "/t/b.sto" (by decide) (by decide)
  rw [h]
  decide

/-! ## Lemmas and claims for the track matcher -/

theorem ite_zero_bounds {c : Prop} [Decidable c] (a : ℚ) (h0 : 0 ≤ a) :
    0 ≤ (if c then a else 0) ∧ (if c then a else 0) ≤ a := by
  split <;> simp [h0]

theorem candScore_ge_agree (po : Bool) (kws : List String) (t : TrackData)
    (hagree : ((po && t.is_oval) || (!po && !t.is_oval)) = true) :
    2 ≤ candScore po kws t := by
  unfold candScore
  simp only []
  rw [hagree]
  have b1 := ite_zero_bounds (c := (kws.any fun kw =>
    containsSub (strLower t.config_name) kw ||
    containsSub (strLower t.track_dirpath) kw) = true) (5 : ℚ) (by norm_num)
  have b3 := ite_zero_bounds (c := ((if po = true then DEFAULT_OVAL_CONFIGS
    else DEFAULT_ROAD_CONFIGS).any fun d =>
    containsSub (strLower t.config_name) d ||
    containsSub (strLower t.track_dirpath) d) = true) (1 : ℚ) (by norm_num)
  have b4 := ite_zero_bounds (c := (!t.is_dirt) = true) ((1 : ℚ)/2) (by norm_num)
  simp only [eq_self_iff_true, if_true]
  linarith [b1.1, b3.1, b4.1]

theorem candScore_le_disagree_nokw (po : Bool) (kws : List String) (t : TrackData)
    (hkw : (kws.any fun kw => containsSub (strLower t.config_name) kw ||
      containsSub (strLower t.track_dirpath) kw) = false)
    (hdis : ((po && t.is_oval) || (!po && !t.is_oval)) = false) :
    candScore po kws t ≤ 3/2 := by
  unfold candScore
  simp only []
  rw [hkw, hdis]
  have b3 := ite_zero_bounds (c := ((if po = true then DEFAULT_OVAL_CONFIGS
    else DEFAULT_ROAD_CONFIGS).any fun d =>
    containsSub (strLower t.config_name) d ||
    containsSub (strLower t.track_dirpath) d) = true) (1 : ℚ) (by norm_num)
  have b4 := ite_zero_bounds (c := (!t.is_dirt) = true) ((1 : ℚ)/2) (by norm_num)
  simp only [Bool.false_eq_true, if_false]
  linarith [b3.2, b4.2]

theorem candScore_ge_kw (po : Bool) (kws : List String) (t : TrackData)
    (hkw : (kws.any fun kw => containsSub (strLower t.config_name) kw ||
      containsSub (strLower t.track_dirpath) kw) = true) :
    5 ≤ candScore po kws t := by
  unfold candScore
  simp only []
  rw [hkw]
  have b2 := ite_zero_bounds (c := (po && t.is_oval || !po && !t.is_oval) = true)
    (2 : ℚ) (by norm_num)
  have b3 := ite_zero_bounds (c := ((if po = true then DEFAULT_OVAL_CONFIGS
    else DEFAULT_ROAD_CONFIGS).any fun d =>
    containsSub (strLower t.config_name) d ||
    containsSub (strLower t.track_dirpath) d) = true) (1 : ℚ) (by norm_num)
  have b4 := ite_zero_bounds (c := (!t.is_dirt) = true) ((1 : ℚ)/2) (by norm_num)
  simp only [eq_self_iff_true, if_true]
  linarith [b2.1, b3.1, b4.1]

theorem candScore_le_nokw (po : Bool) (kws : List String) (t : TrackData)
    (hkw : (kws.any fun kw => containsSub (strLower t.config_name) kw ||
      containsSub (strLower t.track_dirpath) kw) = false) :
    candScore po kws t ≤ 7/2 := by
  unfold candScore
  simp only []
  rw [hkw]
  have b2 := ite_zero_bounds (c := (po && t.is_oval || !po && !t.is_oval) = true)
    (2 : ℚ) (by norm_num)
  have b3 := ite_zero_bounds (c := ((if po = true then DEFAULT_OVAL_CONFIGS
    else DEFAULT_ROAD_CONFIGS).any fun d =>
    containsSub (strLower t.config_name) d ||
    containsSub (strLower t.track_dirpath) d) = true) (1 : ℚ) (by norm_num)
  have b4 := ite_zero_bounds (c := (!t.is_dirt) = true) ((1 : ℚ)/2) (by norm_num)
  simp only [Bool.false_eq_true, if_false]
  linarith [b2.2, b3.2, b4.2]

/-- `_select_best_config` on a two-candidate list, both non-retired, with
the first scoring at least 1/2 above the second: picks the first,
unambiguously, at the tier confidence. -/
theorem select_best_config_pair_first (A B : TrackData)
    (cat cfg : Option String) (conf : ℚ)
    (hAr : A.retired = false) (hBr : B.retired = false)
    (hgap : candScore (should_prefer_oval cat) (configKeywords cfg) B ≤
      candScore (should_prefer_oval cat) (configKeywords cfg) A - 1/2) :
    select_best_config [A, B] cat cfg conf =
      ⟨some A.track_dirpath, conf, false, some A.track_name, some A.config_name⟩ := by
  have hretain : retainCandidates [A, B] = [A, B] := by
    unfold retainCandidates
    simp [List.filter, hAr, hBr]
  have hnotgt : ¬(candScore (should_prefer_oval cat) (configKeywords cfg) B >
      candScore (should_prefer_oval cat) (configKeywords cfg) A) := by linarith
  have hsort : stableSortDesc (scoredCandidates [A, B] cat cfg) =
      [(candScore (should_prefer_oval cat) (configKeywords cfg) A, A),
       (candScore (should_prefer_oval cat) (configKeywords cfg) B, B)] := by
    show insertDesc (candScore (should_prefer_oval cat) (configKeywords cfg) B, B)
      [(candScore (should_prefer_oval cat) (configKeywords cfg) A, A)] = _
    simp [insertDesc, hnotgt]
  have hc1 : decide (candScore (should_prefer_oval cat) (configKeywords cfg) A ≥
      candScore (should_prefer_oval cat) (configKeywords cfg) A - 1/10) = true :=
    decide_eq_true (by linarith)
  have hc2 : decide (candScore (should_prefer_oval cat) (configKeywords cfg) B ≥
      candScore (should_prefer_oval cat) (configKeywords cfg) A - 1/10) = false :=
    decide_eq_false (by linarith)
  unfold select_best_config
  rw [if_neg (by simp : ¬([A, B] = []))]
  rw [hretain]
  simp only [hsort]
  simp only [List.countP_cons, List.countP_nil, hc1, hc2]
  norm_num

/-- Symmetric version: the second candidate scores at least 1/2 above the
first; the stable descending sort moves it to the front. -/
theorem select_best_config_pair_second (A B : TrackData)
    (cat cfg : Option String) (conf : ℚ)
    (hAr : A.retired = false) (hBr : B.retired = false)
    (hgap : candScore (should_prefer_oval cat) (configKeywords cfg) A ≤
      candScore (should_prefer_oval cat) (configKeywords cfg) B - 1/2) :
    select_best_config [A, B] cat cfg conf =
      ⟨some B.track_dirpath, conf, false, some B.track_name, some B.config_name⟩ := by
  have hretain : retainCandidates [A, B] = [A, B] := by
    unfold retainCandidates
    simp [List.filter, hAr, hBr]
  have hgt : candScore (should_prefer_oval cat) (configKeywords cfg) B >
      candScore (should_prefer_oval cat) (configKeywords cfg) A := by linarith
  have hsort : stableSortDesc (scoredCandidates [A, B] cat cfg) =
      [(candScore (should_prefer_oval cat) (configKeywords cfg) B, B),
       (candScore (should_prefer_oval cat) (configKeywords cfg) A, A)] := by
    show insertDesc (candScore (should_prefer_oval cat) (configKeywords cfg) B, B)
      [(candScore (should_prefer_oval cat) (configKeywords cfg) A, A)] = _
    simp [insertDesc, hgt]
  have hc1 : decide (candScore (should_prefer_oval cat) (configKeywords cfg) B ≥
      candScore (should_prefer_oval cat) (configKeywords cfg) B - 1/10) = true :=
    decide_eq_true (by linarith)
  have hc2 : decide (candScore (should_prefer_oval cat) (configKeywords cfg) A ≥
      candScore (should_prefer_oval cat) (configKeywords cfg) B - 1/10) = false :=
    decide_eq_false (by linarith)
  unfold select_best_config
  rw [if_neg (by simp : ¬([A, B] = []))]
  rw [hretain]
  simp only [hsort]
  simp only [List.countP_cons, List.countP_nil, hc1, hc2]
  norm_num

theorem idxAppend_lookup (idx : NameIndex) (k : String) (t : TrackData)
    (k' : String) :
    alistLookup (idxAppend idx k t) k' =
      if k' = k then some ((alistLookup idx k).getD [] ++ [t])
      else alistLookup idx k' := by
  unfold idxAppend
  rcases hg : alistLookup idx k with _ | l
  · rw [alistLookup_append_single]
    by_cases h1 : k' = k
    · subst h1
      rw [hg]
      simp [hg]
    · rcases hgh : alistLookup idx k' with _ | x <;>
        simp [hgh, h1, Ne.symm h1]
  · rw [alistLookup_insert]
    by_cases h1 : k' = k
    · subst h1; simp [hg]
    · simp [h1]

theorem idxAppendIfNew_lookup (idx : NameIndex) (k : String) (t : TrackData)
    (k' : String) :
    alistLookup (idxAppendIfNew idx k t) k' =
      if k' = k then
        some (if t ∈ (alistLookup idx k).getD [] then (alistLookup idx k).getD []
              else (alistLookup idx k).getD [] ++ [t])
      else alistLookup idx k' := by
  unfold idxAppendIfNew
  rcases hg : alistLookup idx k with _ | l
  · rw [alistLookup_append_single]
    by_cases h1 : k' = k
    · subst h1
      rw [hg]
      simp [hg]
    · rcases hgh : alistLookup idx k' with _ | x <;>
        simp [hgh, h1, Ne.symm h1]
  · simp only []
    by_cases hmem : t ∈ l
    · rw [if_pos hmem]
      by_cases h1 : k' = k
      · subst h1; simp [hg, hmem]
      · simp [h1]
    · rw [if_neg hmem]
      rw [alistLookup_insert]
      by_cases h1 : k' = k
      · subst h1; simp [hg, hmem]
      · simp [h1]

/-- Processing a track whose base-name key is `k` appends it to the list
at `k` and disturbs nothing else at `k`. -/
theorem buildIndexStep_lookup_base (idx : NameIndex) (t : TrackData) (k : String)
    (hk : normalize_name (extract_base_name t.track_name) = k) :
    alistLookup (buildIndexStep idx t) k =
      some ((alistLookup idx k).getD [] ++ [t]) := by
  unfold buildIndexStep
  rw [hk]
  have h1 : alistLookup (idxAppend idx k t) k =
      some ((alistLookup idx k).getD [] ++ [t]) := by
    rw [idxAppend_lookup, if_pos rfl]
  set idx1 := idxAppend idx k t with hidx1
  have h2 : alistLookup
      (if normalize_name t.track_name ≠ k then
        idxAppend idx1 (normalize_name t.track_name) t
       else idx1) k = some ((alistLookup idx k).getD [] ++ [t]) := by
    by_cases hfk : normalize_name t.track_name ≠ k
    · rw [if_pos hfk, idxAppend_lookup, if_neg (fun hh => hfk hh.symm)]
      exact h1
    · rw [if_neg hfk]
      exact h1
  set idx2 := if normalize_name t.track_name ≠ k then
      idxAppend idx1 (normalize_name t.track_name) t
    else idx1 with hidx2
  by_cases hdb : dirpathBase t.track_dirpath ≠ ""
  · rw [if_pos hdb]
    rw [idxAppendIfNew_lookup]
    by_cases hkd : k = dirpathBase t.track_dirpath
    · rw [if_pos hkd, ← hkd, h2]
      simp
    · rw [if_neg hkd]
      exact h2
  · rw [if_neg hdb]
    exact h2

/-- The index built from exactly two tracks sharing a base-name key maps
that key to `[A, B]`. -/
theorem build_search_index_pair (A B : TrackData) (k : String)
    (hA : normalize_name (extract_base_name A.track_name) = k)
    (hB : normalize_name (extract_base_name B.track_name) = k) :
    alistLookup (build_search_index [A, B]) k = some [A, B] := by
  have hfold : build_search_index [A, B] =
      buildIndexStep (buildIndexStep [] A) B := rfl
  have h1 := buildIndexStep_lookup_base [] A k hA
  have h2 := buildIndexStep_lookup_base (buildIndexStep [] A) B k hB
  rw [h1] at h2
  rw [hfold, h2]
  simp [alistLookup]

/-- The scoring branch of `_select_best_config`: whenever at least two
candidates remain after the retired filter and at least two of the
sorted scores lie within 0.1 of the top score, the result is ambiguous
and the confidence is the tier confidence times 0.9. -/
theorem select_best_config_ambiguous_spec (candidates : List TrackData)
    (cat cfg : Option String) (conf : ℚ) (top : ℚ × TrackData)
    (rest : List (ℚ × TrackData))
    (hne : candidates ≠ [])
    (hlen : 2 ≤ (retainCandidates candidates).length)
    (hsort : stableSortDesc (scoredCandidates (retainCandidates candidates) cat cfg)
      = top :: rest)
    (hcount : 2 ≤ (top :: rest).countP (fun s => decide (s.1 ≥ top.1 - 1/10))) :
    (select_best_config candidates cat cfg conf).ambiguous = true ∧
    (select_best_config candidates cat cfg conf).confidence = conf * (9/10) := by
  rcases hrc : retainCandidates candidates with _ | ⟨c1, rest1⟩
  · rw [hrc] at hlen; simp at hlen
  · rcases rest1 with _ | ⟨c2, crest⟩
    · rw [hrc] at hlen; simp at hlen
    · rw [hrc] at hsort
      unfold select_best_config
      rw [if_neg hne, hrc]
      simp only [hsort]
      have hamb : decide (1 <
          (top :: rest).countP (fun s => decide (s.1 ≥ top.1 - 1/10))) = true :=
        decide_eq_true (by omega)
      simp [hamb]

/-- Tier-1 reduction of `_match_name`: a hit on the normalized query in
the name index goes straight to `_select_best_config` at confidence 1. -/
theorem match_name_tier1 (tracks : List TrackData) (index : NameIndex)
    (track_name : String) (cat cfg : Option String) (cands : List TrackData)
    (hlk : alistLookup index (normalize_name track_name) = some cands) :
    match_name tracks index track_name cat cfg =
      select_best_config cands cat cfg 1 := by
  unfold match_name
  simp only [hlk]

/-- `TrackMatcher.match` reduction when the first `_match_name` call
yields a truthy dirpath. -/
theorem matchTrack_tier1_found (tracks : List TrackData) (index : NameIndex)
    (track_name : String) (cat : Option String) (r : TrackMatchResult)
    (hname : track_name ≠ "")
    (hmn : match_name tracks index track_name cat
      (parse_compound_name track_name).2 = r)
    (htruthy : dirpathTruthy r.track_dirpath = true) :
    matchTrack tracks index track_name cat = r := by
  unfold matchTrack
  rw [if_neg hname]
  simp only [hmn, htruthy, if_true]

/-- Claim C8 (amended): for a catalog of exactly two non-retired records
sharing a base name — one oval, one road, both with nonempty canonical
paths — and a nonempty base name from which the compound-name parse
derives no internal configuration hint, matching that base name with an
oval-preferring (NASCAR-family) hint returns the oval record's canonical
path and matching it with a road-preferring (GT3-family) hint returns
the road record's; and whenever two or more candidates score within 0.1
of the top disambiguation score, the result is marked ambiguous with the
tier confidence multiplied by 0.9. -/
theorem C8_matcher_disambiguation_amended :
    (∀ (A B : TrackData) (b : String) (oval_hint road_hint : Option String),
      A.retired = false → B.retired = false →
      A.is_oval = true → B.is_oval = false →
      extract_base_name A.track_name = b →
      extract_base_name B.track_name = b →
      b ≠ "" →
      (parse_compound_name b).2 = none →
      A.track_dirpath ≠ "" → B.track_dirpath ≠ "" →
      should_prefer_oval oval_hint = true →
      should_prefer_oval road_hint = false →
      (matchTrack [A, B] (build_search_index [A, B]) b oval_hint).track_dirpath =
        some A.track_dirpath ∧
      (matchTrack [A, B] (build_search_index [A, B]) b road_hint).track_dirpath =
        some B.track_dirpath) ∧
    (∀ (candidates : List TrackData) (cat cfg : Option String) (conf : ℚ)
       (top : ℚ × TrackData) (rest : List (ℚ × TrackData)),
      candidates ≠ [] →
      2 ≤ (retainCandidates candidates).length →
      stableSortDesc (scoredCandidates (retainCandidates candidates) cat cfg) =
        top :: rest →
      2 ≤ (top :: rest).countP (fun s => decide (s.1 ≥ top.1 - 1/10)) →
      (select_best_config candidates cat cfg conf).ambiguous = true ∧
      (select_best_config candidates cat cfg conf).confidence = conf * (9/10)) := by
  constructor
  · intro A B b oval_hint road_hint hAr hBr hAo hBo hbA hbB hb hnohint hAd hBd hov hrd
    have hidx := build_search_index_pair A B (normalize_name b)
      (by rw [hbA]) (by rw [hbB])
    constructor
    · -- oval-preferring hint: A wins by at least 1/2
      have hA2 : 2 ≤ candScore (should_prefer_oval oval_hint) (configKeywords none) A :=
        candScore_ge_agree _ _ _ (by simp [hov, hAo])
      have hB2 : candScore (should_prefer_oval oval_hint) (configKeywords none) B ≤
          3/2 :=
        candScore_le_disagree_nokw _ _ _ rfl (by simp [hov, hBo])
      have hsel := select_best_config_pair_first A B oval_hint none 1 hAr hBr
        (by linarith)
      have hmn : match_name [A, B] (build_search_index [A, B]) b oval_hint
          (parse_compound_name b).2 =
          ⟨some A.track_dirpath, 1, false, some A.track_name, some A.config_name⟩ := by
        rw [hnohint, match_name_tier1 [A, B] (build_search_index [A, B]) b
          oval_hint none [A, B] hidx, hsel]
      rw [matchTrack_tier1_found [A, B] (build_search_index [A, B]) b oval_hint _
        hb hmn (by simp [dirpathTruthy, hAd])]
    · -- road-preferring hint: B wins by at least 1/2
      have hB2 : 2 ≤ candScore (should_prefer_oval road_hint) (configKeywords none) B :=
        candScore_ge_agree _ _ _ (by simp [hrd, hBo])
      have hA2 : candScore (should_prefer_oval road_hint) (configKeywords none) A ≤
          3/2 :=
        candScore_le_disagree_nokw _ _ _ rfl (by simp [hrd, hAo])
      have hsel := select_best_config_pair_second A B road_hint none 1 hAr hBr
        (by linarith)
      have hmn : match_name [A, B] (build_search_index [A, B]) b road_hint
          (parse_compound_name b).2 =
          ⟨some B.track_dirpath, 1, false, some B.track_name, some B.config_name⟩ := by
        rw [hnohint, match_name_tier1 [A, B] (build_search_index [A, B]) b
          road_hint none [A, B] hidx, hsel]
      rw [matchTrack_tier1_found [A, B] (build_search_index [A, B]) b road_hint _
        hb hmn (by simp [dirpathTruthy, hBd])]
  · intro candidates cat cfg conf top rest hne hlen hsort hcount
    exact select_best_config_ambiguous_spec candidates cat cfg conf top rest
      hne hlen hsort hcount

/-- Witness for C8 (amended): on the two-layout `Widmark` venue, a
NASCAR hint selects the oval path and a GT3 hint the club path; and on
two equally scoring road layouts the result is ambiguous with the 0.8
tier confidence scaled by 0.9. -/
theorem C8_matcher_disambiguation_amended_witness :
    ((matchTrack [wTrackOval, wTrackRoad]
        (build_search_index [wTrackOval, wTrackRoad]) "Widmark"
        (some "NASCAR")).track_dirpath = some wTrackOval.track_dirpath ∧
      (matchTrack [wTrackOval, wTrackRoad]
        (build_search_index [wTrackOval, wTrackRoad]) "Widmark"
        (some "GT3")).track_dirpath = some wTrackRoad.track_dirpath) ∧
    ((select_best_config [wTrackRoad, wTrackRoadAlt] (some "GT3") none
        (8/10)).ambiguous = true ∧
      (select_best_config [wTrackRoad, wTrackRoadAlt] (some "GT3") none
        (8/10)).confidence = (8/10) * (9/10)) := by
  constructor
  · exact C8_matcher_disambiguation_amended.1 wTrackOval wTrackRoad "Widmark"
      (some "NASCAR") (some "GT3") rfl rfl rfl rfl (by decide) (by decide)
      (by decide) (by decide) (by decide) (by decide) (by decide) (by decide)
  · have hsB : candScore (should_prefer_oval (some "GT3")) (configKeywords none)
        wTrackRoad = 5/2 := by
      have e1 : ((configKeywords none).any fun kw =>
          containsSub (strLower wTrackRoad.config_name) kw ||
          containsSub (strLower wTrackRoad.track_dirpath) kw) = false := by decide
      have e2 : (should_prefer_oval (some "GT3") && wTrackRoad.is_oval ||
          !should_prefer_oval (some "GT3") && !wTrackRoad.is_oval) = true := by
        decide
      have e3 : ((if should_prefer_oval (some "GT3") = true then
          DEFAULT_OVAL_CONFIGS else DEFAULT_ROAD_CONFIGS).any fun d =>
          containsSub (strLower wTrackRoad.config_name) d ||
          containsSub (strLower wTrackRoad.track_dirpath) d) = false := by decide
      have e4 : (!wTrackRoad.is_dirt) = true := by decide
      unfold candScore
      simp only []
      rw [e1, e2, e3, e4]
      norm_num
    have hsB3 : candScore (should_prefer_oval (some "GT3")) (configKeywords none)
        wTrackRoadAlt = 5/2 := by
      have e1 : ((configKeywords none).any fun kw =>
          containsSub (strLower wTrackRoadAlt.config_name) kw ||
          containsSub (strLower wTrackRoadAlt.track_dirpath) kw) = false := by
        decide
      have e2 : (should_prefer_oval (some "GT3") && wTrackRoadAlt.is_oval ||
          !should_prefer_oval (some "GT3") && !wTrackRoadAlt.is_oval) = true := by
        decide
      have e3 : ((if should_prefer_oval (some "GT3") = true then
          DEFAULT_OVAL_CONFIGS else DEFAULT_ROAD_CONFIGS).any fun d =>
          containsSub (strLower wTrackRoadAlt.config_name) d ||
          containsSub (strLower wTrackRoadAlt.track_dirpath) d) = false := by
        decide
      have e4 : (!wTrackRoadAlt.is_dirt) = true := by decide
      unfold candScore
      simp only []
      rw [e1, e2, e3, e4]
      norm_num
    have hretain : retainCandidates [wTrackRoad, wTrackRoadAlt] =
        [wTrackRoad, wTrackRoadAlt] := by decide
    have hsort : stableSortDesc (scoredCandidates
        (retainCandidates [wTrackRoad, wTrackRoadAlt]) (some "GT3") none) =
        ((5 : ℚ)/2, wTrackRoad) :: [((5 : ℚ)/2, wTrackRoadAlt)] := by
      rw [hretain]
      show insertDesc (candScore (should_prefer_oval (some "GT3"))
          (configKeywords none) wTrackRoadAlt, wTrackRoadAlt)
        (insertDesc (candScore (should_prefer_oval (some "GT3"))
          (configKeywords none) wTrackRoad, wTrackRoad) []) = _
      rw [hsB, hsB3]
      norm_num [insertDesc]
    have hcount : 2 ≤ (((5 : ℚ)/2, wTrackRoad) ::
        [((5 : ℚ)/2, wTrackRoadAlt)]).countP
        (fun s => decide (s.1 ≥ ((5 : ℚ)/2, wTrackRoad).1 - 1/10)) := by
      simp only [List.countP_cons, List.countP_nil]
      norm_num
    exact C8_matcher_disambiguation_amended.2 [wTrackRoad, wTrackRoadAlt]
      (some "GT3") none (8/10) ((5 : ℚ)/2, wTrackRoad)
      [((5 : ℚ)/2, wTrackRoadAlt)] (by decide) (by decide) hsort hcount

/-- Counterexample to C8 as stated: the catalog holds exactly two
non-retired records for the base name `Widmark Road`, one oval and one
road, yet matching that base name with the NASCAR hint returns the ROAD
record's path, not the oval one's — the compacted base name ends in the
suffix keyword `road`, so the derived internal config hint awards the
road record +5, overriding the +2 oval preference. -/
theorem C8_matcher_disambiguation_counterexample :
    cxTrackOval.retired = false ∧ cxTrackRoad.retired = false ∧
    cxTrackOval.is_oval = true ∧ cxTrackRoad.is_oval = false ∧
    extract_base_name cxTrackOval.track_name = "Widmark Road" ∧
    extract_base_name cxTrackRoad.track_name = "Widmark Road" ∧
    should_prefer_oval (some "NASCAR") = true ∧
    cxTrackRoad.track_dirpath ≠ cxTrackOval.track_dirpath ∧
    (matchTrack [cxTrackOval, cxTrackRoad]
      (build_search_index [cxTrackOval, cxTrackRoad])
      "Widmark Road" (some "NASCAR")).track_dirpath =
      some cxTrackRoad.track_dirpath := by
  refine ⟨rfl, rfl, rfl, rfl, by decide, by decide, by decide, by decide, ?_⟩
  have hidx := build_search_index_pair cxTrackOval cxTrackRoad
    (normalize_name "Widmark Road") (by decide) (by decide)
  have h5 : 5 ≤ candScore (should_prefer_oval (some "NASCAR"))
      (configKeywords (some "road")) cxTrackRoad :=
    candScore_ge_kw _ _ _ (by decide)
  have h7 : candScore (should_prefer_oval (some "NASCAR"))
      (configKeywords (some "road")) cxTrackOval ≤ 7/2 :=
    candScore_le_nokw _ _ _ (by decide)
  have hsel := select_best_config_pair_second cxTrackOval cxTrackRoad
    (some "NASCAR") (some "road") 1 rfl rfl (by linarith)
  have hparse : (parse_compound_name "Widmark Road").2 = some "road" := by decide
  have hmn : match_name [cxTrackOval, cxTrackRoad]
      (build_search_index [cxTrackOval, cxTrackRoad]) "Widmark Road"
      (some "NASCAR") (parse_compound_name "Widmark Road").2 =
      ⟨some cxTrackRoad.track_dirpath, 1, false,
       some cxTrackRoad.track_name, some cxTrackRoad.config_name⟩ := by
    rw [hparse, match_name_tier1 _ _ _ _ _ _ hidx, hsel]
  rw [matchTrack_tier1_found _ _ _ _ _ (by decide) hmn (by decide)]

end IRSD
